import Mathlib

/-!
# The service handle of `launcher/service/base/service.go`

A shallow embedding of the `Service` type of package `base` and of the operations
`GetStatus`, `IsRunning`, `demuxLogsReader`, `GetLogs`, `FollowLogs`, `Exec`, `Apply`
and `RemoveData`, together with the library routines they call
(`stdcopy.StdCopy`, `bufio.Reader.ReadLine`, `strings.Join`, `strings.TrimSpace`,
`fmt.Sprintf`, `fmt.Errorf`).

Modelling conventions.

* A Go `string` is an immutable sequence of bytes; it is a `List Nat` here, one
  number per byte.  String literals of the source are ASCII and are written `lit "..."`.
* The container engine, the operating system and the compose tool are collaborators.
  The engine client is a record of response functions; an operation that talks to a
  collaborator also returns the list of calls it made, in order.
* The stream of the engine, which `StdCopy` reads, is modelled by its content: the bytes
  it delivers and the error that ends it (`none` for `io.EOF`).  `StdCopy` reads until it
  has the bytes it needs, so that the pieces in which they arrive do not matter to it.
* The pipe of `demuxLogsReader` is modelled write by write, and the `bufio.Reader` over
  it with its buffer, its pending error and its limit on reads that bring no byte, since
  the lines `ReadLine` returns depend on all three.
* Loops whose number of rounds is bounded by the unread input carry that bound as a
  first argument; `StdCopy.copyLoop_bound`, `BufReader.ReadSliceLoop_bound` and
  `GetLogs.readLoop_bound` show that the bound is never what ends them.
* `int` is modelled by the integers; sizes are natural numbers.
* The goroutine of `FollowLogs` is modelled by the sequence of channel operations it
  performs when its sends are received.
-/

namespace Base

/-! ## Strings and errors -/

/-- Go `string`: a sequence of bytes. -/
abbrev GoString := List Nat

/-- The bytes of an ASCII string literal of the source. -/
def lit (s : String) : GoString := s.toList.map Char.toNat

/-- An error value produced by a collaborator (engine client, `stdcopy`, `os`, `os/exec`),
identified by the text of its `Error()` method. -/
structure ExtError where
  text : GoString
deriving DecidableEq, Repr

/-- Modelled from the spec: `service.ErrExec` of package `launcher/service`, whose
declaration is not part of the sources at hand.  The structured failure carries the
captured output, the numeric exit code and a human-readable summary; the three fields
are the ones the composite literal in `Exec` sets. -/
structure ErrExec where
  Output : GoString
  ExitCode : Int
  Message : GoString
deriving DecidableEq, Repr

/-- The `error` values `Exec` can return. -/
inductive Error where
  /-- The value built by `fmt.Errorf` with a `%w` verb: its text and the wrapped error. -/
  | wrapError (msg : GoString) (err : ExtError)
  /-- A `service.ErrExec` value. -/
  | errExec (e : ErrExec)
deriving DecidableEq, Repr

/-- `errors.Unwrap`: the error wrapped by a `%w` error, if any. -/
def Error.Unwrap : Error → Option ExtError
  | .wrapError _ err => some err
  | .errExec _ => none

/-- The text (`Error()`) of a `%w` error. -/
def Error.wrapText : Error → Option GoString
  | .wrapError msg _ => some msg
  | .errExec _ => none

/-- Whether the error is a `service.ErrExec`. -/
def Error.isErrExec : Error → Bool
  | .wrapError _ _ => false
  | .errExec _ => true

/-- `fmt.Errorf(label + "%w", err)`: the text is the label followed by `err.Error()`,
and the result wraps `err`. -/
def Errorf_w (label : GoString) (err : ExtError) : Error :=
  .wrapError (label ++ err.text) err

/-- `strings.Join(elems, sep)`. -/
def Join : List GoString → GoString → GoString
  | [], _ => []
  | [a], _ => a
  | a :: b :: rest, sep => a ++ sep ++ Join (b :: rest) sep

/-- The `%d` verb of `fmt` for an `int`: an optional minus sign and the decimal digits. -/
def formatInt (c : Int) : GoString :=
  let digits := (Nat.toDigits 10 c.natAbs).map Char.toNat
  if c < 0 then 45 :: digits else digits

/-- `asciiSpace` of package `strings`: tab, line feed, vertical tab, form feed,
carriage return and space. -/
def isAsciiSpace (b : Nat) : Bool :=
  b = 9 ∨ b = 10 ∨ b = 11 ∨ b = 12 ∨ b = 13 ∨ b = 32

/-- Removes the white space at the front of a string, one rune at a time, as
`strings.TrimLeftFunc(s, unicode.IsSpace)` does.  The runes with `unicode.IsSpace` are
the six ASCII ones, U+0085, U+00A0, U+1680, U+2000 to U+200A, U+2028, U+2029, U+202F,
U+205F and U+3000; each is recognised by its UTF-8 encoding.  A byte that starts no
valid encoding decodes to `utf8.RuneError`, which is not a space, and stops the scan. -/
def trimLeftSpace : List Nat → List Nat
  | [] => []
  | b0 :: t0 =>
    if isAsciiSpace b0 then trimLeftSpace t0
    else match t0 with
      | [] => [b0]
      | b1 :: t1 =>
        if b0 = 0xC2 ∧ (b1 = 0x85 ∨ b1 = 0xA0) then trimLeftSpace t1
        else match t1 with
          | [] => [b0, b1]
          | b2 :: t2 =>
            if (b0 = 0xE1 ∧ b1 = 0x9A ∧ b2 = 0x80)
                ∨ (b0 = 0xE2 ∧ b1 = 0x80 ∧ ((0x80 ≤ b2 ∧ b2 ≤ 0x8A) ∨ b2 = 0xA8 ∨ b2 = 0xA9 ∨ b2 = 0xAF))
                ∨ (b0 = 0xE2 ∧ b1 = 0x81 ∧ b2 = 0x9F)
                ∨ (b0 = 0xE3 ∧ b1 = 0x80 ∧ b2 = 0x80)
            then trimLeftSpace t2
            else b0 :: b1 :: b2 :: t2

/-- The mirror image of `trimLeftSpace` on the reversed string: removes from the front
of the reversed bytes every reversed encoding of a white-space rune.
`utf8.DecodeLastRuneInString` finds exactly these, since the bytes after the first one
of an encoding are continuation bytes. -/
def trimLeftSpaceRev : List Nat → List Nat
  | [] => []
  | b0 :: t0 =>
    if isAsciiSpace b0 then trimLeftSpaceRev t0
    else match t0 with
      | [] => [b0]
      | b1 :: t1 =>
        if b1 = 0xC2 ∧ (b0 = 0x85 ∨ b0 = 0xA0) then trimLeftSpaceRev t1
        else match t1 with
          | [] => [b0, b1]
          | b2 :: t2 =>
            if (b2 = 0xE1 ∧ b1 = 0x9A ∧ b0 = 0x80)
                ∨ (b2 = 0xE2 ∧ b1 = 0x80 ∧ ((0x80 ≤ b0 ∧ b0 ≤ 0x8A) ∨ b0 = 0xA8 ∨ b0 = 0xA9 ∨ b0 = 0xAF))
                ∨ (b2 = 0xE2 ∧ b1 = 0x81 ∧ b0 = 0x9F)
                ∨ (b2 = 0xE3 ∧ b1 = 0x80 ∧ b0 = 0x80)
            then trimLeftSpaceRev t2
            else b0 :: b1 :: b2 :: t2

/-- `strings.TrimSpace(s)`: `s` without its leading and trailing white space, as
defined by Unicode. -/
def TrimSpace (s : GoString) : GoString :=
  (trimLeftSpaceRev (trimLeftSpace s).reverse).reverse

/-! ## Streams: `io.Reader`, `stdcopy.StdCopy`, `io.Pipe`, `bufio.Reader` -/

/-- An `io.Reader`, by content: the bytes it delivers, then the error that ends it
(`none` stands for `io.EOF`). -/
structure Reader where
  data : List Nat
  err : Option ExtError
deriving DecidableEq, Repr

/-- `stdcopy.StdType`: the stream tag in the first byte of a frame header. -/
inductive StdType where
  | Stdin
  | Stdout
  | Stderr
  | Systemerr
deriving DecidableEq, Repr

/-- The byte value of a stream tag. -/
def StdType.toByte : StdType → Nat
  | .Stdin => 0
  | .Stdout => 1
  | .Stderr => 2
  | .Systemerr => 3

/-- The two destinations handed to `StdCopy`. -/
inductive Dst where
  | dstout
  | dsterr
deriving DecidableEq, Repr

/-- `binary.BigEndian.Uint32` of four bytes. -/
def bigEndianUint32 (b4 b5 b6 b7 : Nat) : Nat :=
  b4 * 2 ^ 24 + b5 * 2 ^ 16 + b6 * 2 ^ 8 + b7

/-- `binary.BigEndian.PutUint32`: the four bytes of a 32-bit size. -/
def putUint32 (n : Nat) : List Nat :=
  [n / 2 ^ 24 % 256, n / 2 ^ 16 % 256, n / 2 ^ 8 % 256, n % 256]

/-- What `StdCopy` reports: the `Write` calls it made, in order, each with its destination
and bytes; the number of bytes written; the error. -/
structure StdCopyResult where
  writes : List (Dst × List Nat)
  written : Nat
  err : Option ExtError
deriving DecidableEq, Repr

/-- `StdCopy` when the source runs out before a full header or a full frame:
on `io.EOF` it returns what was written and no error, on another read error it returns
0 and that error. -/
def StdCopy.srcEnd (srcErr : Option ExtError) (ws : List (Dst × List Nat)) (written : Nat) :
    StdCopyResult :=
  match srcErr with
  | none => ⟨ws, written, none⟩
  | some er => ⟨ws, 0, some er⟩

/-- The main loop of `stdcopy.StdCopy` over the unread bytes `buf` of the source.
Each round needs a full header (8 bytes: the stream tag, three unused bytes, the
big-endian payload size), picks the destination from the stream tag (`Stdin` and
`Stdout` go to `dstout`, `Stderr` to `dsterr`, `Systemerr` nowhere, any other tag is an
error), needs the full frame, turns a `Systemerr` frame into an error, and otherwise
writes the payload, without the header, to the destination.  The destinations used by
this package (`bytes.Buffer`, the write end of `io.Pipe` whose read end is never closed)
accept every write in full.  A round consumes at least the 8 header bytes; the first
argument bounds the number of rounds. -/
def StdCopy.loop (srcErr : Option ExtError) :
    Nat → List Nat → List (Dst × List Nat) → Nat → StdCopyResult
  | 0, _, ws, written => StdCopy.srcEnd srcErr ws written
  | fuel + 1, buf, ws, written =>
    match buf with
    | fd :: _ :: _ :: _ :: b4 :: b5 :: b6 :: b7 :: rest =>
      if 3 < fd then
        ⟨ws, 0, some ⟨lit "Unrecognized input header: " ++ formatInt fd⟩⟩
      else
        let frameSize := bigEndianUint32 b4 b5 b6 b7
        if rest.length < frameSize then StdCopy.srcEnd srcErr ws written
        else if fd = 3 then
          ⟨ws, written, some ⟨lit "error from daemon in stream: " ++ rest.take frameSize⟩⟩
        else
          let out := if fd = 2 then Dst.dsterr else Dst.dstout
          StdCopy.loop srcErr fuel (rest.drop frameSize) (ws ++ [(out, rest.take frameSize)])
            (written + frameSize)
    | _ => StdCopy.srcEnd srcErr ws written

/-- `stdcopy.StdCopy(dstout, dsterr, src)`. -/
def StdCopy (src : Reader) : StdCopyResult :=
  StdCopy.loop src.err (src.data.length + 1) src.data [] 0

/-- The content of a writer that was passed as both `dstout` and `dsterr`: the bytes of
all writes, in the order they were made. -/
def sameWriter (ws : List (Dst × List Nat)) : List Nat :=
  (ws.map Prod.snd).flatten

/-- The read end of an `io.Pipe`: the writes made to the write end that are still to be
read, in order; the write end is closed after them, so that the reader then returns
`io.EOF`. -/
structure PipeReader where
  writes : List (List Nat)
deriving DecidableEq, Repr

/-- The bytes a pipe reader delivers in all. -/
def PipeReader.data (r : PipeReader) : List Nat := r.writes.flatten

/-- `PipeReader.Read(p)` with `len(p) = cap`: the bytes read, whether the error is
`io.EOF`, and the reader afterwards.  A read takes bytes of one write only: all of them
when they fit, and otherwise the first `cap`, the write staying pending with the rest.
An empty write gives a read of no bytes and no error. -/
def PipeReader.Read (r : PipeReader) (cap : Nat) : List Nat × Bool × PipeReader :=
  match r.writes with
  | [] => ([], true, r)
  | w :: ws =>
    if cap < w.length then (w.take cap, false, ⟨w.drop cap :: ws⟩)
    else (w, false, ⟨ws⟩)

/-- The errors a `bufio.Reader` over a pipe reader reports. -/
inductive ReadError where
  | EOF
  | ErrNoProgress
  | ErrBufferFull
deriving DecidableEq, Repr

/-- A `bufio.Reader` over a pipe reader: the buffered bytes not yet handed out
(`b.buf[b.r:b.w]`), the pending error `b.err`, and the underlying reader.  The size of
the buffer is a parameter of the operations. -/
structure BufReader where
  buf : List Nat
  err : Option ReadError
  rd : PipeReader
deriving DecidableEq, Repr

/-- The bytes a buffered reader has still to hand out: the buffered ones, then those of
the underlying reader. -/
def BufReader.content (b : BufReader) : List Nat := b.buf ++ b.rd.data

/-- The default buffer size of `bufio.NewReader`. -/
def defaultBufSize : Nat := 4096

/-- The number of reads without bytes and without error after which `fill` gives up. -/
def maxConsecutiveEmptyReads : Nat := 100

/-- `bufio.NewReader(rd)`. -/
def NewReader (rd : PipeReader) : BufReader := ⟨[], none, rd⟩

/-- The read loop of `fill`, with `i` tries left: a read into the free part of the
buffer; an error is recorded, bytes end the loop, and a read without bytes and without
error is tried again; with no try left the error is `io.ErrNoProgress`. -/
def BufReader.fillLoop (size : Nat) : Nat → BufReader → BufReader
  | 0, b => ⟨b.buf, some .ErrNoProgress, b.rd⟩
  | i + 1, b =>
    match b.rd.Read (size - b.buf.length) with
    | (data, eof, rd) =>
      if eof then ⟨b.buf ++ data, some .EOF, rd⟩
      else if 0 < data.length then ⟨b.buf ++ data, b.err, rd⟩
      else BufReader.fillLoop size i ⟨b.buf ++ data, b.err, rd⟩

/-- `fill`: reads a new chunk into a buffer that is not full. -/
def BufReader.fill (b : BufReader) (size : Nat) : BufReader :=
  BufReader.fillLoop size maxConsecutiveEmptyReads b

/-- The loop of `ReadSlice('\n')`: the bytes up to and including the first line feed in
the buffer; failing that, all buffered bytes together with the pending error, which is
cleared; failing that, all buffered bytes and `ErrBufferFull` when the buffer is full;
failing that, a `fill` and another round.  A round that fills records an error or adds a
byte, so there are at most `size + 1` of them; the first argument bounds the number of
rounds. -/
def BufReader.ReadSliceLoop (size : Nat) :
    Nat → BufReader → List Nat × Option ReadError × BufReader
  | 0, b => (b.buf, some .ErrNoProgress, ⟨[], none, b.rd⟩)
  | fuel + 1, b =>
    let pre := b.buf.takeWhile (fun c => c ≠ 10)
    if pre.length < b.buf.length then
      (b.buf.take (pre.length + 1), none, ⟨b.buf.drop (pre.length + 1), b.err, b.rd⟩)
    else
      match b.err with
      | some e => (b.buf, some e, ⟨[], none, b.rd⟩)
      | none =>
        if size ≤ b.buf.length then (b.buf, some .ErrBufferFull, ⟨[], none, b.rd⟩)
        else BufReader.ReadSliceLoop size fuel (b.fill size)

/-- `ReadSlice('\n')`: the line, the error, and the reader afterwards. -/
def BufReader.ReadSlice (b : BufReader) (size : Nat) : List Nat × Option ReadError × BufReader :=
  BufReader.ReadSliceLoop size (size + 2) b

/-- `ReadLine`: the returned line, the `isPrefix` flag and the error, and the reader
afterwards.  On `ErrBufferFull` the line is a fragment, flagged `isPrefix`, and a final
carriage return is put back into the buffer; an empty line is returned with the error of
`ReadSlice`; otherwise the error is dropped and a final line feed, with a carriage return
before it, is stripped. -/
def BufReader.ReadLine (b : BufReader) (size : Nat) :
    (List Nat × Bool × Option ReadError) × BufReader :=
  match b.ReadSlice size with
  | (line, err, b1) =>
    if err = some .ErrBufferFull then
      if line.getLast? = some 13 then ((line.dropLast, true, none), ⟨13 :: b1.buf, b1.err, b1.rd⟩)
      else ((line, true, none), b1)
    else if line = [] then (([], false, err), b1)
    else if line.getLast? = some 10 then
      let drop := if 1 < line.length ∧ line.dropLast.getLast? = some 13 then 2 else 1
      ((line.take (line.length - drop), false, none), b1)
    else ((line, false, none), b1)

/-- The read loop of `GetLogs`: calls `ReadLine` until it returns an error, appending
each returned line, whatever its `isPrefix` flag, to `lines`.  A successful call hands
out at least one byte; the first argument bounds the number of calls. -/
def GetLogs.loop (size : Nat) : Nat → BufReader → List GoString → List GoString
  | 0, _, lines => lines
  | fuel + 1, b, lines =>
    match b.ReadLine size with
    | ((_, _, some _), _) => lines
    | ((line, _, none), b1) => GetLogs.loop size fuel b1 (lines ++ [line])

/-- An operation on the channel of `FollowLogs`. -/
inductive ChanOp where
  | send (v : GoString)
  | close
deriving DecidableEq, Repr

/-- The loop of the goroutine of `FollowLogs`: sends each line `ReadLine` returns, and
on the first error sends the end marker and leaves the loop. -/
def FollowLogs.loop (size : Nat) : Nat → BufReader → List ChanOp
  | 0, _ => [.send (lit "--- EOF ---")]
  | fuel + 1, b =>
    match b.ReadLine size with
    | ((_, _, some _), _) => [.send (lit "--- EOF ---")]
    | ((line, _, none), b1) => .send line :: FollowLogs.loop size fuel b1

/-! ## The engine client and the service handle -/

/-- The fields of `types.ExecConfig` that `Exec` sets. -/
structure ExecConfig where
  Cmd : List GoString
  Tty : Bool
  AttachStdin : Bool
  AttachStdout : Bool
  AttachStderr : Bool
deriving DecidableEq, Repr

/-- The fields of `types.ExecStartCheck`. -/
structure ExecStartCheck where
  Detach : Bool
  Tty : Bool
deriving DecidableEq, Repr

/-- The fields of `types.ContainerLogsOptions` that the log operations set. -/
structure ContainerLogsOptions where
  ShowStdout : Bool
  ShowStderr : Bool
  Since : GoString
  Tail : GoString
  Follow : Bool
deriving DecidableEq, Repr

/-- The fields of `types.ContainerJSON` that are read: `State.Status` and
`State.StartedAt`. -/
structure ContainerJSON where
  Status : GoString
  StartedAt : GoString
deriving DecidableEq, Repr

/-- The container engine client (`docker.Client`) as far as this file calls it: for each
method, the response of the engine to the call. -/
structure Client where
  ContainerInspect : GoString → Except ExtError ContainerJSON
  ContainerLogs : GoString → ContainerLogsOptions → Except ExtError Reader
  ContainerExecCreate : GoString → ExecConfig → Except ExtError GoString
  ContainerExecAttach : GoString → ExecStartCheck → Except ExtError Reader
  ContainerExecInspect : GoString → Except ExtError Int

/-- A call `Exec` makes; `StdCopy` is the drain of the attached stream. -/
inductive ExecCall where
  | ContainerExecCreate (container : GoString) (config : ExecConfig)
  | ContainerExecAttach (execID : GoString) (check : ExecStartCheck)
  | StdCopy (src : Reader)
  | ContainerExecInspect (execID : GoString)
deriving DecidableEq, Repr

/-- Modelled from the spec: `types.Context` of package `launcher/types`, whose
declaration is not part of the sources at hand; only its network identifier
(`GetNetwork()`) is used. -/
structure Context where
  network : GoString
deriving DecidableEq, Repr

/-- The network identifier of the context. -/
def Context.GetNetwork (ctx : Context) : GoString := ctx.network

/-- Modelled from the spec: `Config` of package `base`, whose declaration is not part of
the sources at hand.  It supplies an image reference, an exposed-port list, a disabled
flag and a directory path, the four fields `Apply` reads. -/
structure Config where
  Image : GoString
  ExposePorts : List GoString
  Disabled : Bool
  Dir : GoString
deriving DecidableEq, Repr

/-- A Go `map[string]string`: a list of entries with distinct keys. -/
abbrev StringMap := List (GoString × GoString)

/-- The assignment `m[k] = v`. -/
def StringMap.set (m : StringMap) (k v : GoString) : StringMap :=
  (k, v) :: m.filter (fun e => e.1 ≠ k)

/-- The `Service` struct; the logger is left out, a log call appears in a call list
where the order matters. -/
structure Service where
  Name : GoString
  Context : Context
  Hostname : GoString
  Image : GoString
  Command : List GoString
  Environment : StringMap
  Ports : List GoString
  Volumes : List GoString
  Disabled : Bool
  DataDir : GoString
  client : Client
  ContainerName : GoString

/-- `getContainer`: inspects the container by name. -/
def Service.getContainer (t : Service) : Except ExtError ContainerJSON :=
  match t.client.ContainerInspect t.ContainerName with
  | .error err => .error err
  | .ok c => .ok c

/-- `GetStatus`: the text `Container ` followed by the raw state status, or the error
of the inspection with an empty string. -/
def Service.GetStatus (t : Service) : GoString × Option ExtError :=
  match t.getContainer with
  | .error err => (lit "", some err)
  | .ok c => (lit "Container " ++ c.Status, none)

/-- `IsRunning`. -/
def Service.IsRunning (t : Service) : Bool :=
  match t.GetStatus with
  | (_, some _) => false
  | (status, none) => status = lit "Container running"

/-- `demuxLogsReader`: the read end of a pipe into which a goroutine copies the frames of
`reader`, with the write end as both destinations, and which it then closes whatever
`StdCopy` returned.  Each `Write` of `StdCopy` is one write to the pipe. -/
def Service.demuxLogsReader (_t : Service) (reader : Reader) : PipeReader :=
  ⟨(StdCopy reader).writes.map Prod.snd⟩

/-- `GetLogs`: the lines and the error. -/
def Service.GetLogs (t : Service) (since tail : GoString) : List GoString × Option ExtError :=
  match t.client.ContainerLogs t.ContainerName ⟨true, true, since, tail, false⟩ with
  | .error err => ([], some err)
  | .ok reader =>
    let r := t.demuxLogsReader reader
    let bufReader := NewReader r
    (GetLogs.loop defaultBufSize (r.data.length + 1) bufReader [], none)

/-- `FollowLogs`: the error, or the operations the goroutine performs on the channel. -/
def Service.FollowLogs (t : Service) (since tail : GoString) : Except ExtError (List ChanOp) :=
  match t.client.ContainerLogs t.ContainerName ⟨true, true, since, tail, true⟩ with
  | .error err => .error err
  | .ok reader =>
    let r := t.demuxLogsReader reader
    let bufReader := NewReader r
    .ok (FollowLogs.loop defaultBufSize (r.data.length + 1) bufReader ++ [.close])

/-- What `Exec` returns, and the calls it made. -/
structure ExecResult where
  output : GoString
  err : Option Error
  calls : List ExecCall
deriving DecidableEq, Repr

/-- The failure message of `Exec`:
`[docker] command "%s" exits with non-zero code %d: %s`. -/
def Exec.msg (name : GoString) (args : List GoString) (exitCode : Int) (output : GoString) :
    GoString :=
  lit "[docker] command \"" ++ Join (name :: args) (lit " ") ++ lit "\" exits with non-zero code "
    ++ formatInt exitCode ++ lit ": " ++ TrimSpace output

/-- `Exec`. -/
def Service.Exec (t : Service) (name : GoString) (args : List GoString) : ExecResult :=
  let config : ExecConfig := ⟨name :: args, false, false, true, true⟩
  let c1 := ExecCall.ContainerExecCreate t.ContainerName config
  match t.client.ContainerExecCreate t.ContainerName config with
  | .error err => ⟨lit "", some (Errorf_w (lit "[docker] create exec: ") err), [c1]⟩
  | .ok execId =>
    let c2 := ExecCall.ContainerExecAttach execId ⟨false, false⟩
    match t.client.ContainerExecAttach execId ⟨false, false⟩ with
    | .error err => ⟨lit "", some (Errorf_w (lit "[docker] attach exec: ") err), [c1, c2]⟩
    | .ok attachResp =>
      let c3 := ExecCall.StdCopy attachResp
      let copied := StdCopy attachResp
      let buf := sameWriter copied.writes
      match copied.err with
      | some err => ⟨lit "", some (Errorf_w (lit "[docker] stdcopy: ") err), [c1, c2, c3]⟩
      | none =>
        let c4 := ExecCall.ContainerExecInspect execId
        match t.client.ContainerExecInspect execId with
        | .error err =>
          ⟨lit "", some (Errorf_w (lit "[docker] inspect exec: ") err), [c1, c2, c3, c4]⟩
        | .ok exitCode =>
          if exitCode ≠ 0 then
            let output := buf
            ⟨lit "", some (.errExec ⟨output, exitCode, Exec.msg name args exitCode output⟩),
              [c1, c2, c3, c4]⟩
          else ⟨buf, none, [c1, c2, c3, c4]⟩

/-- `Apply`, for a `cfg` that holds a `Config`: the state of the handle afterwards.
The returned error is always nil. -/
def Service.Apply (t : Service) (c : Config) : Service × Option ExtError :=
  let t1 := { t with Image := c.Image }
  let t2 := { t1 with Ports := c.ExposePorts }
  let t3 := { t2 with Disabled := c.Disabled }
  let t4 := { t3 with Environment := [] }
  let t5 := { t4 with Environment := t4.Environment.set (lit "NETWORK") t4.Context.GetNetwork }
  let t6 := { t5 with DataDir := c.Dir }
  let t7 := { t6 with Ports := [] }
  let t8 := { t7 with Volumes := [] }
  let t9 := { t8 with Command := [] }
  (t9, none)

/-- The operating system as `RemoveData` uses it: the outcome of `os.RemoveAll(path)` and
of running a command to completion (`exec.Command(...).Run()`); `none` is a nil error. -/
structure OS where
  RemoveAll : GoString → Option ExtError
  Run : List GoString → Option ExtError

/-- A call `RemoveData` makes. -/
inductive DataCall where
  | RemoveAll (path : GoString)
  | Warnf (text : GoString)
  | Run (argv : List GoString)
deriving DecidableEq, Repr

/-- `RemoveData`: the returned error and the calls made. -/
def Service.RemoveData (t : Service) (os : OS) : Option ExtError × List DataCall :=
  match os.RemoveAll t.DataDir with
  | some _ =>
    let argv := [lit "sudo", lit "rm", lit "-rf", t.DataDir]
    (os.Run argv,
      [.RemoveAll t.DataDir, .Warnf (lit "Forcefully remove " ++ t.DataDir), .Run argv])
  | none => (none, [.RemoveAll t.DataDir])

/-- `New`, given the outcome of creating the engine client: the fresh handle. -/
def New (ctx : Context) (name : GoString) (newClient : Except ExtError Client) :
    Except ExtError Service :=
  match newClient with
  | .error err => .error ⟨lit "failed to create Docker client: " ++ err.text⟩
  | .ok client =>
    .ok ⟨name, ctx, name, lit "", [], [], [], [], false, lit "", client,
      ctx.GetNetwork ++ lit "_" ++ name ++ lit "_1"⟩

/-! ## Vocabulary of the properties -/

/-- The command line as the text describes it: the name, then each argument preceded by
a single space. -/
def commandLine (name : GoString) (args : List GoString) : GoString :=
  name ++ (args.map (fun a => lit " " ++ a)).flatten

/-- The UTF-8 encoding of a code point of the basic multilingual plane: one byte below
U+0080, two below U+0800, three otherwise. -/
def utf8Encode (r : Nat) : List Nat :=
  if r < 0x80 then [r]
  else if r < 0x800 then [0xC0 + r / 64, 0x80 + r % 64]
  else [0xE0 + r / 4096, 0x80 + r / 64 % 64, 0x80 + r % 64]

/-- The code points that are white space as defined by Unicode (`unicode.IsSpace`): tab,
line feed, vertical tab, form feed, carriage return, space, U+0085, U+00A0, U+1680,
U+2000 to U+200A, U+2028, U+2029, U+202F, U+205F and U+3000. -/
def spaceRunes : List Nat :=
  [0x09, 0x0A, 0x0B, 0x0C, 0x0D, 0x20, 0x85, 0xA0, 0x1680,
    0x2000, 0x2001, 0x2002, 0x2003, 0x2004, 0x2005, 0x2006, 0x2007, 0x2008, 0x2009, 0x200A,
    0x2028, 0x2029, 0x202F, 0x205F, 0x3000]

/-- The byte sequences that are one white-space character. -/
def spaceEncodings : List (List Nat) := spaceRunes.map utf8Encode

/-- A run of white space: white-space characters, one after another, and nothing
else. -/
def IsSpaceRun (l : List Nat) : Prop :=
  ∃ es : List (List Nat), (∀ e ∈ es, e ∈ spaceEncodings) ∧ l = es.flatten

/-- The four steps of `Exec` that talk to a collaborator. -/
inductive ExecStep where
  | create
  | attach
  | drain
  | inspect
deriving DecidableEq, Repr

/-- The step a call belongs to. -/
def ExecCall.step : ExecCall → ExecStep
  | .ContainerExecCreate _ _ => .create
  | .ContainerExecAttach _ _ => .attach
  | .StdCopy _ => .drain
  | .ContainerExecInspect _ => .inspect

/-- The label that starts the error text of a failed step. -/
def ExecStep.label : ExecStep → GoString
  | .create => lit "[docker] create exec: "
  | .attach => lit "[docker] attach exec: "
  | .drain => lit "[docker] stdcopy: "
  | .inspect => lit "[docker] inspect exec: "

/-- The steps up to and including a given one, in the order `Exec` performs them. -/
def ExecStep.upTo : ExecStep → List ExecStep
  | .create => [.create]
  | .attach => [.create, .attach]
  | .drain => [.create, .attach, .drain]
  | .inspect => [.create, .attach, .drain, .inspect]

/-- The step `step` of `t.Exec name args` is the first to fail, with error `e`: the
steps before it succeed and it returns `e`. -/
def FailsFirstAt (t : Service) (name : GoString) (args : List GoString) (e : ExtError) :
    ExecStep → Prop
  | .create =>
    t.client.ContainerExecCreate t.ContainerName ⟨name :: args, false, false, true, true⟩ = .error e
  | .attach => ∃ execId,
    t.client.ContainerExecCreate t.ContainerName ⟨name :: args, false, false, true, true⟩
      = .ok execId
    ∧ t.client.ContainerExecAttach execId ⟨false, false⟩ = .error e
  | .drain => ∃ execId attachResp,
    t.client.ContainerExecCreate t.ContainerName ⟨name :: args, false, false, true, true⟩
      = .ok execId
    ∧ t.client.ContainerExecAttach execId ⟨false, false⟩ = .ok attachResp
    ∧ (StdCopy attachResp).err = some e
  | .inspect => ∃ execId attachResp,
    t.client.ContainerExecCreate t.ContainerName ⟨name :: args, false, false, true, true⟩
      = .ok execId
    ∧ t.client.ContainerExecAttach execId ⟨false, false⟩ = .ok attachResp
    ∧ (StdCopy attachResp).err = none
    ∧ t.client.ContainerExecInspect execId = .error e

/-- The same handle with another response of the engine to the exec inspection. -/
def Service.withExecInspect (t : Service) (insp : GoString → Except ExtError Int) : Service :=
  { t with client := { t.client with ContainerExecInspect := insp } }

/-- A frame of the multiplexed stream: the stream tag and the payload. -/
structure Frame where
  stream : StdType
  payload : List Nat
deriving DecidableEq, Repr

/-- The bytes of a frame as `stdcopy.NewStdWriter` emits them: the 8-byte header (tag,
three zero bytes, big-endian payload size) and the payload. -/
def Frame.encode (f : Frame) : List Nat :=
  [f.stream.toByte, 0, 0, 0] ++ putUint32 f.payload.length ++ f.payload

/-- The destination `StdCopy` picks for a frame tagged stdout or stderr. -/
def Frame.dst (f : Frame) : Dst := if f.stream = .Stderr then .dsterr else .dstout

/-- The bytes of a sequence of frames, in arrival order. -/
def encodeFrames (frames : List Frame) : List Nat :=
  (frames.map Frame.encode).flatten

/-- A frame of a well-formed output stream: tagged stdout or stderr, with a payload whose
size fits the 32-bit size field. -/
def Frame.WellFormed (f : Frame) : Prop :=
  (f.stream = .Stdout ∨ f.stream = .Stderr) ∧ f.payload.length < 2 ^ 32

instance Frame.decidableWellFormed (f : Frame) : Decidable f.WellFormed := by
  unfold Frame.WellFormed
  infer_instance

/-- The payloads of a sequence of frames, concatenated in arrival order. -/
def payloads (frames : List Frame) : List Nat :=
  (frames.map Frame.payload).flatten

/-- The writes pending on a pipe never make `fill` give up: there is no run of
`maxConsecutiveEmptyReads` empty writes in a row. -/
def NoStall (writes : List (List Nat)) : Prop :=
  ¬ (List.replicate maxConsecutiveEmptyReads ([] : List Nat) <:+: writes)

/-- Splits a byte stream on line terminators and strips them: a line ends at a line
feed, a carriage return right before the line feed belongs to the terminator, and what
follows the last terminator is a line when it is not empty.  `cur` holds the bytes of
the line being read. -/
def splitLines.go : List Nat → List Nat → List GoString
  | [], cur => if cur = [] then [] else [cur]
  | b :: rest, cur =>
    if b = 10 then (if cur.getLast? = some 13 then cur.dropLast else cur) :: splitLines.go rest []
    else splitLines.go rest (cur ++ [b])

/-- The lines of a byte stream, terminators stripped. -/
def splitLines (d : List Nat) : List GoString := splitLines.go d []

/-! ## Example collaborators -/

/-- An engine client that gives the same response to every call of a method. -/
def stubClient (inspect : Except ExtError ContainerJSON) (logs : Except ExtError Reader)
    (create : Except ExtError GoString) (attach : Except ExtError Reader)
    (exit : Except ExtError Int) : Client :=
  ⟨fun _ => inspect, fun _ _ => logs, fun _ _ => create, fun _ _ => attach, fun _ => exit⟩

/-- An error of the engine for a container that does not exist. -/
def noSuchContainer : ExtError := ⟨lit "No such container"⟩

/-- A handle named `lnd` on network `simnet` over the given client. -/
def exampleService (client : Client) : Service :=
  ⟨lit "lnd", ⟨lit "simnet"⟩, lit "lnd", lit "", [], [], [], [], false, lit "/data/lnd", client,
    lit "simnet_lnd_1"⟩

/-- A handle whose container runs a command that prints `out` on stdout and exits with
`code`. -/
def execService (out : List Nat) (code : Int) : Service :=
  exampleService (stubClient (.error noSuchContainer) (.error noSuchContainer)
    (.ok (lit "exec-1")) (.ok ⟨encodeFrames [⟨.Stdout, out⟩], none⟩) (.ok code))

/-- A handle whose container has the given raw state status. -/
def statusService (status : GoString) : Service :=
  exampleService (stubClient (.ok ⟨status, lit "2021-01-01T00:00:00Z"⟩) (.error noSuchContainer)
    (.error noSuchContainer) (.error noSuchContainer) (.error noSuchContainer))

/-- A handle whose container logs are the given frames, in both log modes. -/
def logService (frames : List Frame) : Service :=
  exampleService (stubClient (.error noSuchContainer) (.ok ⟨encodeFrames frames, none⟩)
    (.error noSuchContainer) (.error noSuchContainer) (.error noSuchContainer))

/-- An operating system on which ordinary removal is refused and the privileged one
works. -/
def permissionDeniedOS : OS :=
  ⟨fun _ => some ⟨lit "permission denied"⟩, fun _ => none⟩

/-- An error of the transport that cuts a stream. -/
def connectionReset : ExtError := ⟨lit "connection reset by peer"⟩

/-- A handle whose exec stream delivers one stdout frame and is then cut by a transport
error, and whose exec inspection would report exit code 0. -/
def cutStreamService : Service :=
  exampleService (stubClient (.error noSuchContainer) (.error noSuchContainer)
    (.ok (lit "exec-1")) (.ok ⟨encodeFrames [⟨.Stdout, lit "partial"⟩], some connectionReset⟩)
    (.ok 0))

/-! ## Supporting facts -/

theorem Join_cons_eq_commandLine (name : GoString) (args : List GoString) :
    Join (name :: args) (lit " ") = commandLine name args := by
  induction args generalizing name with
  | nil => simp [Join, commandLine]
  | cons a rest ih =>
    simp only [Join, ih a, commandLine, List.map_cons, List.flatten_cons, List.append_assoc]

theorem formatInt_eq_toString (c : Int) : formatInt c = lit (toString c) := by
  cases c with
  | ofNat n =>
    have h : ¬ ((Int.ofNat n) < 0) := Int.not_lt.mpr (Int.ofNat_nonneg n)
    simp only [formatInt, h, if_false]
    rfl
  | negSucc n =>
    have h : (Int.negSucc n) < 0 := Int.negSucc_lt_zero n
    simp only [formatInt, h, if_true]
    rfl

/-- What `Exec` returns once the four steps have succeeded. -/
theorem Exec_of_steps_ok (t : Service) (name : GoString) (args : List GoString)
    (execId : GoString) (attachResp : Reader) (c : Int)
    (hcreate : t.client.ContainerExecCreate t.ContainerName
      ⟨name :: args, false, false, true, true⟩ = .ok execId)
    (hattach : t.client.ContainerExecAttach execId ⟨false, false⟩ = .ok attachResp)
    (hdrain : (StdCopy attachResp).err = none)
    (hinspect : t.client.ContainerExecInspect execId = .ok c) :
    ((t.Exec name args).output, (t.Exec name args).err) =
      if c ≠ 0 then
        (lit "", some (.errExec ⟨sameWriter (StdCopy attachResp).writes, c,
          Exec.msg name args c (sameWriter (StdCopy attachResp).writes)⟩))
      else (sameWriter (StdCopy attachResp).writes, none) := by
  simp only [Service.Exec, hcreate, hattach, hdrain, hinspect]
  by_cases hc : c = 0 <;> simp [hc]

theorem bigEndianUint32_putUint32 (n : Nat) (h : n < 2 ^ 32) :
    bigEndianUint32 (n / 2 ^ 24 % 256) (n / 2 ^ 16 % 256) (n / 2 ^ 8 % 256) (n % 256) = n := by
  unfold bigEndianUint32
  norm_num at h ⊢
  omega

theorem encodeFrames_cons (f : Frame) (fs : List Frame) :
    encodeFrames (f :: fs) = f.stream.toByte :: 0 :: 0 :: 0 :: (f.payload.length / 2 ^ 24 % 256)
      :: (f.payload.length / 2 ^ 16 % 256) :: (f.payload.length / 2 ^ 8 % 256)
      :: (f.payload.length % 256) :: (f.payload ++ encodeFrames fs) := by
  simp [encodeFrames, Frame.encode, putUint32]

theorem payloads_cons (f : Frame) (fs : List Frame) :
    payloads (f :: fs) = f.payload ++ payloads fs := by
  simp [payloads]

theorem length_le_length_encodeFrames (frames : List Frame) :
    frames.length ≤ (encodeFrames frames).length := by
  induction frames with
  | nil => simp
  | cons f fs ih =>
    rw [encodeFrames_cons]
    simp only [List.length_cons, List.length_append]
    omega

/-- The main loop of `StdCopy` on the encoding of well-formed frames: one round per
frame, each writing the payload to the destination of the tag, then the end of the
source. -/
theorem StdCopy.loop_encodeFrames (srcErr : Option ExtError) (frames : List Frame)
    (hwf : ∀ f ∈ frames, f.WellFormed) :
    ∀ fuel ws written, frames.length < fuel →
      StdCopy.loop srcErr fuel (encodeFrames frames) ws written
        = StdCopy.srcEnd srcErr (ws ++ frames.map (fun f => (f.dst, f.payload)))
            (written + (payloads frames).length) := by
  induction frames with
  | nil =>
    intro fuel ws written hfuel
    cases fuel with
    | zero => simp [StdCopy.loop, payloads]
    | succ k => simp [StdCopy.loop, encodeFrames, payloads]
  | cons f fs ih =>
    intro fuel ws written hfuel
    cases fuel with
    | zero => simp at hfuel
    | succ k =>
      have hf := hwf f (List.mem_cons_self _ _)
      have hfs : ∀ g ∈ fs, g.WellFormed := fun g hg => hwf g (List.mem_cons_of_mem _ hg)
      have hk : fs.length < k := by simpa using hfuel
      have hsize := bigEndianUint32_putUint32 f.payload.length hf.2
      have htag : ¬ 3 < f.stream.toByte ∧ f.stream.toByte ≠ 3
          ∧ (f.stream.toByte = 2 ↔ f.stream = .Stderr) := by
        rcases hf.1 with h | h <;> simp [h, StdType.toByte]
      rw [encodeFrames_cons]
      simp only [StdCopy.loop, hsize, htag.1, htag.2.1, if_false, List.length_append,
        List.take_left', List.drop_left', htag.2.2]
      have hlt : ¬ (f.payload.length + (encodeFrames fs).length < f.payload.length) := by omega
      simp only [hlt, if_false]
      rw [ih hfs k _ _ hk, payloads_cons]
      simp only [List.map_cons, List.append_assoc, List.singleton_append, List.length_append,
        Frame.dst, Nat.add_assoc]

theorem sameWriter_map (frames : List Frame) (ws : List (Dst × List Nat)) :
    sameWriter (ws ++ frames.map (fun f => (f.dst, f.payload))) = sameWriter ws ++ payloads frames := by
  simp [sameWriter, payloads, Function.comp_def]

/-- `StdCopy` on the encoding of well-formed frames, whatever ends the source: every
payload is written, in order, to the destination of its tag. -/
theorem StdCopy_encodeFrames (frames : List Frame) (hwf : ∀ f ∈ frames, f.WellFormed)
    (srcErr : Option ExtError) :
    StdCopy ⟨encodeFrames frames, srcErr⟩
      = StdCopy.srcEnd srcErr (frames.map (fun f => (f.dst, f.payload))) (payloads frames).length := by
  have h := StdCopy.loop_encodeFrames srcErr frames hwf ((encodeFrames frames).length + 1) [] 0
    (Nat.lt_succ_of_le (length_le_length_encodeFrames frames))
  simpa [StdCopy] using h

theorem StdCopy.srcEnd_writes (srcErr : Option ExtError) (ws : List (Dst × List Nat)) (n : Nat) :
    (StdCopy.srcEnd srcErr ws n).writes = ws := by
  cases srcErr <;> rfl

theorem demuxLogsReader_encodeFrames (t : Service) (frames : List Frame)
    (hwf : ∀ f ∈ frames, f.WellFormed) (srcErr : Option ExtError) :
    t.demuxLogsReader ⟨encodeFrames frames, srcErr⟩ = ⟨frames.map Frame.payload⟩ := by
  simp only [Service.demuxLogsReader, StdCopy_encodeFrames frames hwf, StdCopy.srcEnd_writes,
    List.map_map]
  rfl

/-- The bound on the rounds of `StdCopy` is never what stops it: with more rounds
allowed than bytes unread, one more changes nothing. -/
theorem StdCopy.copyLoop_bound (srcErr : Option ExtError) : ∀ fuel buf ws written,
    buf.length < fuel →
    StdCopy.loop srcErr (fuel + 1) buf ws written = StdCopy.loop srcErr fuel buf ws written := by
  intro fuel
  induction fuel with
  | zero => intro buf ws written h; simp at h
  | succ k ih =>
    intro buf ws written h
    match buf with
    | [] => simp [StdCopy.loop]
    | [_] => simp [StdCopy.loop]
    | [_, _] => simp [StdCopy.loop]
    | [_, _, _] => simp [StdCopy.loop]
    | [_, _, _, _] => simp [StdCopy.loop]
    | [_, _, _, _, _] => simp [StdCopy.loop]
    | [_, _, _, _, _, _] => simp [StdCopy.loop]
    | [_, _, _, _, _, _, _] => simp [StdCopy.loop]
    | fd :: _ :: _ :: _ :: b4 :: b5 :: b6 :: b7 :: rest =>
      rw [StdCopy.loop, StdCopy.loop]
      simp only
      split
      · rfl
      · split
        · rfl
        · split
          · rfl
          · apply ih
            simp only [List.length_cons, List.length_drop] at h ⊢
            omega

theorem spaceEncodings_eq : spaceEncodings =
    [[9], [10], [11], [12], [13], [32], [0xC2, 0x85], [0xC2, 0xA0], [0xE1, 0x9A, 0x80],
      [0xE2, 0x80, 0x80], [0xE2, 0x80, 0x81], [0xE2, 0x80, 0x82], [0xE2, 0x80, 0x83],
      [0xE2, 0x80, 0x84], [0xE2, 0x80, 0x85], [0xE2, 0x80, 0x86], [0xE2, 0x80, 0x87],
      [0xE2, 0x80, 0x88], [0xE2, 0x80, 0x89], [0xE2, 0x80, 0x8A], [0xE2, 0x80, 0xA8],
      [0xE2, 0x80, 0xA9], [0xE2, 0x80, 0xAF], [0xE2, 0x81, 0x9F], [0xE3, 0x80, 0x80]] := by
  decide

theorem spaceEncodings_ne_nil : ∀ e ∈ spaceEncodings, e ≠ [] := by
  rw [spaceEncodings_eq]
  decide

theorem mem_spaceEncodings_one (b0 : Nat) (h : isAsciiSpace b0 = true) :
    [b0] ∈ spaceEncodings := by
  simp only [isAsciiSpace, decide_eq_true_eq] at h
  rw [spaceEncodings_eq]
  rcases h with h | h | h | h | h | h <;> subst h <;> decide

theorem mem_spaceEncodings_two (b0 b1 : Nat) (h : b0 = 0xC2 ∧ (b1 = 0x85 ∨ b1 = 0xA0)) :
    [b0, b1] ∈ spaceEncodings := by
  rw [spaceEncodings_eq]
  obtain ⟨rfl, rfl | rfl⟩ := h <;> decide

theorem mem_spaceEncodings_three (b0 b1 b2 : Nat)
    (h : (b0 = 0xE1 ∧ b1 = 0x9A ∧ b2 = 0x80)
      ∨ (b0 = 0xE2 ∧ b1 = 0x80 ∧ ((0x80 ≤ b2 ∧ b2 ≤ 0x8A) ∨ b2 = 0xA8 ∨ b2 = 0xA9 ∨ b2 = 0xAF))
      ∨ (b0 = 0xE2 ∧ b1 = 0x81 ∧ b2 = 0x9F)
      ∨ (b0 = 0xE3 ∧ b1 = 0x80 ∧ b2 = 0x80)) :
    [b0, b1, b2] ∈ spaceEncodings := by
  rw [spaceEncodings_eq]
  rcases h with ⟨rfl, rfl, rfl⟩ | ⟨rfl, rfl, h⟩ | ⟨rfl, rfl, rfl⟩ | ⟨rfl, rfl, rfl⟩
  · decide
  · rcases h with ⟨h1, h2⟩ | rfl | rfl | rfl
    · interval_cases b2 <;> decide
    · decide
    · decide
    · decide
  · decide
  · decide

/-- A string whose first bytes meet none of the three tests of `trimLeftSpace` starts
with no white-space character. -/
theorem no_space_prefix (s : List Nat)
    (h0 : ∀ b0 t, s = b0 :: t → ¬ isAsciiSpace b0 = true)
    (h1 : ∀ b0 b1 t, s = b0 :: b1 :: t → ¬ (b0 = 0xC2 ∧ (b1 = 0x85 ∨ b1 = 0xA0)))
    (h2 : ∀ b0 b1 b2 t, s = b0 :: b1 :: b2 :: t →
      ¬ ((b0 = 0xE1 ∧ b1 = 0x9A ∧ b2 = 0x80)
        ∨ (b0 = 0xE2 ∧ b1 = 0x80 ∧ ((0x80 ≤ b2 ∧ b2 ≤ 0x8A) ∨ b2 = 0xA8 ∨ b2 = 0xA9 ∨ b2 = 0xAF))
        ∨ (b0 = 0xE2 ∧ b1 = 0x81 ∧ b2 = 0x9F)
        ∨ (b0 = 0xE3 ∧ b1 = 0x80 ∧ b2 = 0x80))) :
    ∀ e ∈ spaceEncodings, ¬ e <+: s := by
  intro e he hpre
  obtain ⟨t, rfl⟩ := hpre
  rw [spaceEncodings_eq] at he
  fin_cases he
  all_goals first
    | exact h0 _ _ rfl (by decide)
    | exact h1 _ _ _ rfl (by decide)
    | exact h2 _ _ _ _ rfl (by decide)

/-- One round of `trimLeftSpace`: the string starts with no white-space character and is
returned as it is, or it starts with one, which is removed. -/
theorem trimLeftSpace_step (s : List Nat) :
    (trimLeftSpace s = s ∧ ∀ e ∈ spaceEncodings, ¬ e <+: s)
    ∨ ∃ e t, e ∈ spaceEncodings ∧ s = e ++ t ∧ trimLeftSpace s = trimLeftSpace t := by
  match s with
  | [] =>
    exact Or.inl ⟨rfl, no_space_prefix [] (fun _ _ h => by cases h) (fun _ _ _ h => by cases h)
      (fun _ _ _ _ h => by cases h)⟩
  | [b0] =>
    rw [trimLeftSpace]
    by_cases h0 : isAsciiSpace b0 = true
    · exact Or.inr ⟨[b0], [], mem_spaceEncodings_one b0 h0, rfl, by rw [if_pos h0]⟩
    · refine Or.inl ⟨by rw [if_neg h0], no_space_prefix _ ?_ ?_ ?_⟩
      · intro c t h; cases h; exact h0
      · intro _ _ _ h; simp at h
      · intro _ _ _ _ h; simp at h
  | [b0, b1] =>
    rw [trimLeftSpace]
    by_cases h0 : isAsciiSpace b0 = true
    · exact Or.inr ⟨[b0], [b1], mem_spaceEncodings_one b0 h0, rfl, by rw [if_pos h0]⟩
    · by_cases h1 : b0 = 0xC2 ∧ (b1 = 0x85 ∨ b1 = 0xA0)
      · exact Or.inr ⟨[b0, b1], [], mem_spaceEncodings_two b0 b1 h1, rfl,
          by rw [if_neg h0, if_pos h1]⟩
      · refine Or.inl ⟨by rw [if_neg h0, if_neg h1], no_space_prefix _ ?_ ?_ ?_⟩
        · intro c t h; cases h; exact h0
        · intro c d t h; cases h; exact h1
        · intro _ _ _ _ h; simp at h
  | b0 :: b1 :: b2 :: t2 =>
    rw [trimLeftSpace]
    by_cases h0 : isAsciiSpace b0 = true
    · exact Or.inr ⟨[b0], b1 :: b2 :: t2, mem_spaceEncodings_one b0 h0, rfl,
        by rw [if_pos h0]⟩
    · by_cases h1 : b0 = 0xC2 ∧ (b1 = 0x85 ∨ b1 = 0xA0)
      · exact Or.inr ⟨[b0, b1], b2 :: t2, mem_spaceEncodings_two b0 b1 h1, rfl,
          by rw [if_neg h0, if_pos h1]⟩
      · by_cases h2 : (b0 = 0xE1 ∧ b1 = 0x9A ∧ b2 = 0x80)
            ∨ (b0 = 0xE2 ∧ b1 = 0x80
              ∧ ((0x80 ≤ b2 ∧ b2 ≤ 0x8A) ∨ b2 = 0xA8 ∨ b2 = 0xA9 ∨ b2 = 0xAF))
            ∨ (b0 = 0xE2 ∧ b1 = 0x81 ∧ b2 = 0x9F)
            ∨ (b0 = 0xE3 ∧ b1 = 0x80 ∧ b2 = 0x80)
        · refine Or.inr ⟨[b0, b1, b2], t2, mem_spaceEncodings_three b0 b1 b2 h2, rfl, ?_⟩
          rw [if_neg h0, if_neg h1, if_pos h2]
        · refine Or.inl ⟨?_, no_space_prefix _ ?_ ?_ ?_⟩
          · rw [if_neg h0, if_neg h1, if_neg h2]
          · intro c t h; cases h; exact h0
          · intro c d t h; cases h; exact h1
          · intro c d e t h; cases h; exact h2

theorem no_space_prefix_rev (s : List Nat)
    (h0 : ∀ b0 t, s = b0 :: t → ¬ isAsciiSpace b0 = true)
    (h1 : ∀ b0 b1 t, s = b0 :: b1 :: t → ¬ (b1 = 0xC2 ∧ (b0 = 0x85 ∨ b0 = 0xA0)))
    (h2 : ∀ b0 b1 b2 t, s = b0 :: b1 :: b2 :: t →
      ¬ ((b2 = 0xE1 ∧ b1 = 0x9A ∧ b0 = 0x80)
        ∨ (b2 = 0xE2 ∧ b1 = 0x80 ∧ ((0x80 ≤ b0 ∧ b0 ≤ 0x8A) ∨ b0 = 0xA8 ∨ b0 = 0xA9 ∨ b0 = 0xAF))
        ∨ (b2 = 0xE2 ∧ b1 = 0x81 ∧ b0 = 0x9F)
        ∨ (b2 = 0xE3 ∧ b1 = 0x80 ∧ b0 = 0x80))) :
    ∀ e ∈ spaceEncodings, ¬ e.reverse <+: s := by
  intro e he hpre
  obtain ⟨t, rfl⟩ := hpre
  rw [spaceEncodings_eq] at he
  fin_cases he
  all_goals first
    | exact h0 _ _ rfl (by decide)
    | exact h1 _ _ _ rfl (by decide)
    | exact h2 _ _ _ _ rfl (by decide)

/-- One round of `trimLeftSpaceRev`: the reversed string starts with no reversed
white-space character and is returned as it is, or it starts with one, which is
removed. -/
theorem trimLeftSpaceRev_step (s : List Nat) :
    (trimLeftSpaceRev s = s ∧ ∀ e ∈ spaceEncodings, ¬ e.reverse <+: s)
    ∨ ∃ e t, e ∈ spaceEncodings ∧ s = e.reverse ++ t
        ∧ trimLeftSpaceRev s = trimLeftSpaceRev t := by
  match s with
  | [] =>
    exact Or.inl ⟨rfl, no_space_prefix_rev [] (fun _ _ h => by cases h)
      (fun _ _ _ h => by cases h) (fun _ _ _ _ h => by cases h)⟩
  | [b0] =>
    rw [trimLeftSpaceRev]
    by_cases h0 : isAsciiSpace b0 = true
    · exact Or.inr ⟨[b0], [], mem_spaceEncodings_one b0 h0, rfl, by rw [if_pos h0]⟩
    · refine Or.inl ⟨by rw [if_neg h0], no_space_prefix_rev _ ?_ ?_ ?_⟩
      · intro c t h; cases h; exact h0
      · intro _ _ _ h; simp at h
      · intro _ _ _ _ h; simp at h
  | [b0, b1] =>
    rw [trimLeftSpaceRev]
    by_cases h0 : isAsciiSpace b0 = true
    · exact Or.inr ⟨[b0], [b1], mem_spaceEncodings_one b0 h0, rfl, by rw [if_pos h0]⟩
    · by_cases h1 : b1 = 0xC2 ∧ (b0 = 0x85 ∨ b0 = 0xA0)
      · exact Or.inr ⟨[b1, b0], [], mem_spaceEncodings_two b1 b0 h1, rfl,
          by rw [if_neg h0, if_pos h1]⟩
      · refine Or.inl ⟨by rw [if_neg h0, if_neg h1], no_space_prefix_rev _ ?_ ?_ ?_⟩
        · intro c t h; cases h; exact h0
        · intro c d t h; cases h; exact h1
        · intro _ _ _ _ h; simp at h
  | b0 :: b1 :: b2 :: t2 =>
    rw [trimLeftSpaceRev]
    by_cases h0 : isAsciiSpace b0 = true
    · exact Or.inr ⟨[b0], b1 :: b2 :: t2, mem_spaceEncodings_one b0 h0, rfl,
        by rw [if_pos h0]⟩
    · by_cases h1 : b1 = 0xC2 ∧ (b0 = 0x85 ∨ b0 = 0xA0)
      · exact Or.inr ⟨[b1, b0], b2 :: t2, mem_spaceEncodings_two b1 b0 h1, rfl,
          by rw [if_neg h0, if_pos h1]⟩
      · by_cases h2 : (b2 = 0xE1 ∧ b1 = 0x9A ∧ b0 = 0x80)
            ∨ (b2 = 0xE2 ∧ b1 = 0x80
              ∧ ((0x80 ≤ b0 ∧ b0 ≤ 0x8A) ∨ b0 = 0xA8 ∨ b0 = 0xA9 ∨ b0 = 0xAF))
            ∨ (b2 = 0xE2 ∧ b1 = 0x81 ∧ b0 = 0x9F)
            ∨ (b2 = 0xE3 ∧ b1 = 0x80 ∧ b0 = 0x80)
        · refine Or.inr ⟨[b2, b1, b0], t2, mem_spaceEncodings_three b2 b1 b0 h2, rfl, ?_⟩
          rw [if_neg h0, if_neg h1, if_pos h2]
        · refine Or.inl ⟨?_, no_space_prefix_rev _ ?_ ?_ ?_⟩
          · rw [if_neg h0, if_neg h1, if_neg h2]
          · intro c t h; cases h; exact h0
          · intro c d t h; cases h; exact h1
          · intro c d e t h; cases h; exact h2

/-- `trimLeftSpace` removes a run of white space from the front and leaves a string that
starts with no white-space character. -/
theorem trimLeftSpace_spec : ∀ n (s : List Nat), s.length ≤ n →
    ∃ es : List (List Nat), (∀ e ∈ es, e ∈ spaceEncodings)
      ∧ s = es.flatten ++ trimLeftSpace s
      ∧ ∀ e ∈ spaceEncodings, ¬ e <+: trimLeftSpace s := by
  intro n
  induction n with
  | zero =>
    intro s hs
    have : s = [] := List.length_eq_zero.mp (by omega)
    subst this
    rcases trimLeftSpace_step [] with ⟨h1, h2⟩ | ⟨e, t, he, hs, _⟩
    · exact ⟨[], by simp, by simp [h1], by rw [h1]; exact h2⟩
    · have := spaceEncodings_ne_nil e he
      simp at hs
      exact absurd hs.1 this
  | succ k ih =>
    intro s hs
    rcases trimLeftSpace_step s with ⟨h1, h2⟩ | ⟨e, t, he, hst, htrim⟩
    · exact ⟨[], by simp, by simp [h1], by rw [h1]; exact h2⟩
    · have hne := spaceEncodings_ne_nil e he
      have hlen : t.length ≤ k := by
        have := congrArg List.length hst
        have hpos : 0 < e.length := List.length_pos.mpr hne
        simp only [List.length_append] at this
        omega
      obtain ⟨es, hes, hsplit, hno⟩ := ih t hlen
      refine ⟨e :: es, ?_, ?_, ?_⟩
      · intro x hx
        rcases List.mem_cons.mp hx with rfl | hx
        · exact he
        · exact hes x hx
      · rw [htrim, List.flatten_cons, List.append_assoc, ← hsplit, hst]
      · rw [htrim]; exact hno

theorem trimLeftSpaceRev_spec : ∀ n (s : List Nat), s.length ≤ n →
    ∃ es : List (List Nat), (∀ e ∈ es, e ∈ spaceEncodings)
      ∧ s = (es.map List.reverse).flatten ++ trimLeftSpaceRev s
      ∧ ∀ e ∈ spaceEncodings, ¬ e.reverse <+: trimLeftSpaceRev s := by
  intro n
  induction n with
  | zero =>
    intro s hs
    have : s = [] := List.length_eq_zero.mp (by omega)
    subst this
    rcases trimLeftSpaceRev_step [] with ⟨h1, h2⟩ | ⟨e, t, he, hs, _⟩
    · exact ⟨[], by simp, by simp [h1], by rw [h1]; exact h2⟩
    · have := spaceEncodings_ne_nil e he
      simp at hs
      exact absurd hs.1 this
  | succ k ih =>
    intro s hs
    rcases trimLeftSpaceRev_step s with ⟨h1, h2⟩ | ⟨e, t, he, hst, htrim⟩
    · exact ⟨[], by simp, by simp [h1], by rw [h1]; exact h2⟩
    · have hne := spaceEncodings_ne_nil e he
      have hlen : t.length ≤ k := by
        have := congrArg List.length hst
        have hpos : 0 < e.length := List.length_pos.mpr hne
        simp only [List.length_append, List.length_reverse] at this
        omega
      obtain ⟨es, hes, hsplit, hno⟩ := ih t hlen
      refine ⟨e :: es, ?_, ?_, ?_⟩
      · intro x hx
        rcases List.mem_cons.mp hx with rfl | hx
        · exact he
        · exact hes x hx
      · rw [htrim, List.map_cons, List.flatten_cons, List.append_assoc, ← hsplit, hst]
      · rw [htrim]; exact hno

/-- `TrimSpace` against the text: the string is a run of white space, the result, and a
run of white space, and the result neither starts nor ends with a white-space
character. -/
theorem TrimSpace_spec (b : GoString) :
    ∃ lead trail : List Nat, IsSpaceRun lead ∧ IsSpaceRun trail
      ∧ b = lead ++ TrimSpace b ++ trail
      ∧ ∀ e ∈ spaceEncodings, ¬ e <+: TrimSpace b ∧ ¬ e <:+ TrimSpace b := by
  obtain ⟨es, hes, hsplit, hno⟩ := trimLeftSpace_spec b.length b (le_refl _)
  obtain ⟨fs, hfs, hsplit2, hno2⟩ :=
    trimLeftSpaceRev_spec (trimLeftSpace b).reverse.length (trimLeftSpace b).reverse (le_refl _)
  have hmid : trimLeftSpace b = TrimSpace b ++ fs.reverse.flatten := by
    have h := congrArg List.reverse hsplit2
    rw [List.reverse_reverse, List.reverse_append] at h
    rw [h, TrimSpace]
    congr 1
    rw [List.reverse_flatten, List.map_map]
    have : (List.reverse ∘ List.reverse : List Nat → List Nat) = id := by
      funext x; simp
    rw [this, List.map_id]
  refine ⟨es.flatten, fs.reverse.flatten, ⟨es, hes, rfl⟩,
    ⟨fs.reverse, fun e he => hfs e (List.mem_reverse.mp he), rfl⟩, ?_, ?_⟩
  · rw [List.append_assoc, ← hmid]
    exact hsplit
  · intro e he
    constructor
    · intro hpre
      apply hno e he
      rw [hmid]
      exact hpre.trans (List.prefix_append _ _)
    · intro hsuf
      apply hno2 e he
      have := List.reverse_prefix.mpr hsuf
      simpa [TrimSpace] using this

theorem PipeReader.Read_data (r : PipeReader) (cap : Nat) :
    (r.Read cap).1 ++ (r.Read cap).2.2.data = r.data := by
  unfold PipeReader.Read
  cases hw : r.writes with
  | nil => simp [PipeReader.data, hw]
  | cons w ws =>
    by_cases hc : cap < w.length
    · simp only [hc, if_true, PipeReader.data, hw, List.flatten_cons, ← List.append_assoc,
        List.take_append_drop]
    · simp [hc, PipeReader.data, hw]

theorem BufReader.fillLoop_content (size : Nat) : ∀ i b,
    (BufReader.fillLoop size i b).content = b.content := by
  intro i
  induction i with
  | zero => intro b; rfl
  | succ k ih =>
    intro b
    have hd := PipeReader.Read_data b.rd (size - b.buf.length)
    rw [BufReader.fillLoop]
    rcases hr : b.rd.Read (size - b.buf.length) with ⟨data, eof, rd⟩
    rw [hr] at hd
    simp only at hd ⊢
    split
    · simp [BufReader.content, hd]
    · split
      · simp [BufReader.content, hd]
      · rw [ih]
        simp [BufReader.content, hd]

/-- A `fill` adds at least one byte and leaves the pending error as it is, or adds no
byte and records `io.EOF` or `io.ErrNoProgress`. -/
theorem BufReader.fillLoop_cases (size : Nat) : ∀ i b, b.buf.length < size →
    ((BufReader.fillLoop size i b).err = b.err
      ∧ b.buf.length < (BufReader.fillLoop size i b).buf.length)
    ∨ (((BufReader.fillLoop size i b).err = some .EOF
        ∨ (BufReader.fillLoop size i b).err = some .ErrNoProgress)
      ∧ (BufReader.fillLoop size i b).buf = b.buf) := by
  intro i
  induction i with
  | zero => intro b _; right; simp [BufReader.fillLoop]
  | succ k ih =>
    intro b hlt
    rw [BufReader.fillLoop]
    cases hw : b.rd.writes with
    | nil => right; simp [PipeReader.Read, hw]
    | cons w ws =>
      by_cases hc : size - b.buf.length < w.length
      · left
        have hpos : 0 < w.length := by omega
        simp only [PipeReader.Read, hw, hc, if_true, Bool.false_eq_true, if_false,
          List.length_take, List.length_append]
        have : 0 < min (size - b.buf.length) w.length := by omega
        simp only [this, if_true, List.length_append, List.length_take]
        exact ⟨trivial, by omega⟩
      · simp only [PipeReader.Read, hw, hc, if_false, Bool.false_eq_true]
        by_cases hpos : 0 < w.length
        · left
          simp only [hpos, if_true, List.length_append]
          exact ⟨trivial, by omega⟩
        · have hw0 : w = [] := List.length_eq_zero.mp (by omega)
          subst hw0
          simp only [List.length_nil, lt_self_iff_false, if_false, List.append_nil]
          exact ih ⟨b.buf, b.err, ⟨ws⟩⟩ hlt

/-- What `ReadSlice` hands out is the front of the content; a line without error is not
empty; a line with `ErrBufferFull` fills the buffer; and no error stays pending. -/
theorem BufReader.ReadSliceLoop_spec (size : Nat) : ∀ fuel b,
    (BufReader.ReadSliceLoop size fuel b).1 ++ (BufReader.ReadSliceLoop size fuel b).2.2.content
      = b.content
    ∧ ((BufReader.ReadSliceLoop size fuel b).2.1 = none →
        (BufReader.ReadSliceLoop size fuel b).1 ≠ [])
    ∧ (b.err ≠ some .ErrBufferFull →
        (BufReader.ReadSliceLoop size fuel b).2.1 = some .ErrBufferFull →
        size ≤ (BufReader.ReadSliceLoop size fuel b).1.length)
    ∧ (b.err = none ∨ (b.buf.takeWhile (fun c => c ≠ 10)).length = b.buf.length →
        (BufReader.ReadSliceLoop size fuel b).2.2.err = none) := by
  intro fuel
  induction fuel with
  | zero => intro b; simp [BufReader.ReadSliceLoop, BufReader.content]
  | succ k ih =>
    intro b
    rw [BufReader.ReadSliceLoop]
    split
    · rename_i hfound
      refine ⟨?_, ?_, ?_, ?_⟩
      · simp [BufReader.content, ← List.append_assoc]
      · intro _ h
        have := congrArg List.length h
        simp only [List.length_take, List.length_nil] at this
        omega
      · intro _ h; cases h
      · intro h
        rcases h with h | h
        · exact h
        · omega
    · rename_i hnot
      cases he : b.err with
      | some e =>
        simp only
        refine ⟨by simp [BufReader.content], by simp, ?_, by simp⟩
        intro h1 h2
        simp only [Option.some.injEq] at h2
        exact absurd (by rw [h2]) h1
      | none =>
        simp only
        split
        · rename_i hfull
          refine ⟨by simp [BufReader.content], by simp, fun _ _ => hfull, by simp⟩
        · rename_i hroom
          simp only [BufReader.fill]
          have h := ih (BufReader.fillLoop size maxConsecutiveEmptyReads b)
          have hc := BufReader.fillLoop_cases size maxConsecutiveEmptyReads b (by omega)
          refine ⟨?_, h.2.1, ?_, ?_⟩
          · rw [h.1]
            exact BufReader.fillLoop_content size _ b
          · intro _
            apply h.2.2.1
            rcases hc with ⟨h1, _⟩ | ⟨h1 | h1, _⟩
            · rw [h1, he]; simp
            · rw [h1]; simp
            · rw [h1]; simp
          · intro _
            apply h.2.2.2
            rcases hc with ⟨h1, _⟩ | ⟨_, h2⟩
            · left
              rw [h1, he]
            · right
              rw [h2]
              have := (List.takeWhile_prefix (fun c => decide (c ≠ 10)) : _ <+: b.buf).length_le
              omega
/-- A call of `ReadLine` on a reader without pending error leaves no error pending, and,
when it returns no error, hands out at least one byte. -/
theorem BufReader.ReadLine_spec (size : Nat) (hsize : 2 ≤ size) (b : BufReader)
    (hb : b.err = none) :
    (b.ReadLine size).2.err = none
    ∧ ((b.ReadLine size).1.2.2 = none →
        (b.ReadLine size).2.content.length < b.content.length) := by
  have hs := BufReader.ReadSliceLoop_spec size (size + 2) b
  have hlen := congrArg List.length hs.1
  have hfull := hs.2.2.1 (by rw [hb]; simp)
  have herr := hs.2.2.2 (Or.inl hb)
  have hne := hs.2.1
  unfold BufReader.ReadLine BufReader.ReadSlice
  rcases hr : BufReader.ReadSliceLoop size (size + 2) b with ⟨line, err, b1⟩
  rw [hr] at hlen hfull herr hne
  simp only [List.length_append] at hlen hfull herr hne ⊢
  split
  · rename_i hbf
    have h2 := hfull hbf
    split
    · refine ⟨herr, fun _ => ?_⟩
      simp only [BufReader.content, List.length_append, List.length_cons] at hlen ⊢
      omega
    · refine ⟨herr, fun _ => ?_⟩
      dsimp only
      omega
  · split
    · rename_i hnil
      refine ⟨herr, fun h => ?_⟩
      exact absurd hnil (hne h)
    · rename_i hnn
      have hpos : 0 < line.length := List.length_pos.mpr hnn
      split
      · exact ⟨herr, fun _ => by dsimp only; omega⟩
      · exact ⟨herr, fun _ => by dsimp only; omega⟩

/-- The bound on the calls in the read loop of `GetLogs` is never what stops it: with
more calls allowed than bytes to hand out, one more changes nothing. -/
theorem GetLogs.readLoop_bound (size : Nat) (hsize : 2 ≤ size) : ∀ fuel b acc,
    b.err = none → b.content.length < fuel →
    GetLogs.loop size (fuel + 1) b acc = GetLogs.loop size fuel b acc := by
  intro fuel
  induction fuel with
  | zero => intro b acc _ h; simp at h
  | succ k ih =>
    intro b acc hb h
    have hs := BufReader.ReadLine_spec size hsize b hb
    rw [GetLogs.loop, GetLogs.loop]
    rcases hr : b.ReadLine size with ⟨⟨line, more, err⟩, b1⟩
    rw [hr] at hs
    cases err with
    | some e => rfl
    | none =>
      simp only
      exact ih b1 _ hs.1 (by have := hs.2 rfl; dsimp only at this; omega)

/-- The bound on the rounds of `ReadSlice` is never what stops it. -/
theorem BufReader.ReadSliceLoop_bound (size : Nat) : ∀ fuel b, 1 ≤ fuel →
    b.err ≠ none ∨ size + 2 ≤ fuel + b.buf.length →
    BufReader.ReadSliceLoop size (fuel + 1) b = BufReader.ReadSliceLoop size fuel b := by
  intro fuel
  induction fuel with
  | zero => intro b h; omega
  | succ k ih =>
    intro b _ h
    conv_lhs => rw [BufReader.ReadSliceLoop]
    conv_rhs => rw [BufReader.ReadSliceLoop]
    split
    · rfl
    · cases he : b.err with
      | some e => rfl
      | none =>
        simp only
        split
        · rfl
        · rename_i hroom
          have hk : size + 2 ≤ k + 1 + b.buf.length := by
            rcases h with h1 | h
            · exact absurd he h1
            · exact h
          simp only [BufReader.fill]
          apply ih _ (by omega)
          rcases BufReader.fillLoop_cases size maxConsecutiveEmptyReads b (by omega)
            with ⟨_, h2⟩ | ⟨h1, _⟩
          · right; omega
          · left
            rcases h1 with h1 | h1 <;> rw [h1] <;> simp

theorem GetLogs.loop_acc (size : Nat) : ∀ fuel b acc,
    GetLogs.loop size fuel b acc = acc ++ GetLogs.loop size fuel b [] := by
  intro fuel
  induction fuel with
  | zero => intro b acc; simp [GetLogs.loop]
  | succ k ih =>
    intro b acc
    rw [GetLogs.loop, GetLogs.loop]
    rcases b.ReadLine size with ⟨⟨line, more, err⟩, b1⟩
    cases err with
    | some e => simp
    | none =>
      simp only
      rw [ih b1 (acc ++ [line]), ih b1 ([] ++ [line])]
      simp

/-- The goroutine of `FollowLogs` sends the entries the read loop of `GetLogs` collects,
and then the end marker. -/
theorem FollowLogs.loop_eq (size : Nat) : ∀ fuel b,
    FollowLogs.loop size fuel b
      = (GetLogs.loop size fuel b []).map ChanOp.send ++ [.send (lit "--- EOF ---")] := by
  intro fuel
  induction fuel with
  | zero => intro b; simp [FollowLogs.loop, GetLogs.loop]
  | succ k ih =>
    intro b
    rw [FollowLogs.loop, GetLogs.loop]
    rcases b.ReadLine size with ⟨⟨line, more, err⟩, b1⟩
    cases err with
    | some e => simp
    | none =>
      simp only
      rw [ih b1, GetLogs.loop_acc size k b1 ([] ++ [line])]
      simp

theorem takeWhile_ne_newline (d : List Nat) :
    (10 ∉ d ∧ d.takeWhile (fun b => b ≠ 10) = d)
    ∨ ∃ pre rest, d = pre ++ 10 :: rest ∧ 10 ∉ pre ∧ d.takeWhile (fun b => b ≠ 10) = pre := by
  induction d with
  | nil => left; simp
  | cons b t ih =>
    by_cases hb : b = 10
    · right
      exact ⟨[], t, by simp [hb], by simp, by simp [hb]⟩
    · rcases ih with ⟨hnot, htw⟩ | ⟨pre, rest, hd, hpre, htw⟩
      · left
        refine ⟨?_, ?_⟩
        · simp only [List.mem_cons, not_or]
          exact ⟨fun h => hb h.symm, hnot⟩
        · rw [List.takeWhile_cons]
          simp only [ne_eq, hb, not_false_eq_true, decide_True, if_true, htw]
      · right
        refine ⟨b :: pre, rest, by simp [hd], ?_, ?_⟩
        · simp only [List.mem_cons, not_or]
          exact ⟨fun h => hb h.symm, hpre⟩
        · rw [List.takeWhile_cons]
          simp only [ne_eq, hb, not_false_eq_true, decide_True, if_true, htw]

theorem takeWhile_replicate_ne_newline (n a : Nat) (ha : a ≠ 10) :
    (List.replicate n a).takeWhile (fun b => b ≠ 10) = List.replicate n a := by
  rcases takeWhile_ne_newline (List.replicate n a) with ⟨_, h⟩ | ⟨p, r, hd, _, _⟩
  · exact h
  · have : (10 : Nat) ∈ List.replicate n a := by rw [hd]; simp
    exact absurd (List.eq_of_mem_replicate this).symm ha

theorem splitLines.go_of_newline (pre rest : List Nat) (hpre : 10 ∉ pre) : ∀ cur,
    splitLines.go (pre ++ 10 :: rest) cur
      = (if (cur ++ pre).getLast? = some 13 then (cur ++ pre).dropLast else cur ++ pre)
          :: splitLines.go rest [] := by
  induction pre with
  | nil => intro cur; simp [splitLines.go]
  | cons b t ih =>
    intro cur
    have hb : b ≠ 10 := fun h => hpre (by simp [h])
    have ht : 10 ∉ t := fun h => hpre (by simp [h])
    show splitLines.go (b :: (t ++ 10 :: rest)) cur = _
    rw [splitLines.go]
    simp only [hb, if_false]
    rw [ih ht]
    simp

theorem splitLines.go_of_last (d : List Nat) (hnot : 10 ∉ d) : ∀ cur,
    splitLines.go d cur = if cur ++ d = [] then [] else [cur ++ d] := by
  induction d with
  | nil => intro cur; simp [splitLines.go]
  | cons b t ih =>
    intro cur
    have hb : b ≠ 10 := fun h => hnot (by simp [h])
    have ht : 10 ∉ t := fun h => hnot (by simp [h])
    rw [splitLines.go]
    simp only [hb, if_false]
    rw [ih ht]
    simp

theorem splitLines_replicate (n a : Nat) (ha : a ≠ 10) (hn : 0 < n) :
    splitLines (List.replicate n a) = [List.replicate n a] := by
  have hnot : 10 ∉ List.replicate n a := fun h => ha (List.eq_of_mem_replicate h).symm
  have hne : List.replicate n a ≠ [] := by
    intro h
    have := congrArg List.length h
    simp at this
    omega
  simp [splitLines, splitLines.go_of_last _ hnot, hne]

theorem getLast?_replicate_ne (n a c : Nat) (hac : a ≠ c) :
    (List.replicate n a).getLast? ≠ some c := by
  cases n with
  | zero => simp
  | succ k =>
    rw [List.replicate_succ']
    simp [hac]

/-- A write of `size + 1` equal bytes, neither line feed nor carriage return: the first
`ReadLine` of a fresh reader fills the buffer and returns `size` bytes as a fragment. -/
theorem BufReader.ReadLine_long_first (m a : Nat) (ha : a ≠ 10) (hcr : a ≠ 13) :
    (NewReader ⟨[List.replicate (m + 2 + 1) a]⟩).ReadLine (m + 2)
      = ((List.replicate (m + 2) a, true, none), ⟨[], none, ⟨[[a]]⟩⟩) := by
  have htw := takeWhile_replicate_ne_newline (m + 2) a ha
  have hlast := getLast?_replicate_ne (m + 2) a 13 hcr
  have hfill : (NewReader ⟨[List.replicate (m + 2 + 1) a]⟩).fill (m + 2)
      = ⟨List.replicate (m + 2) a, none, ⟨[[a]]⟩⟩ := by
    simp only [BufReader.fill, maxConsecutiveEmptyReads, NewReader]
    rw [BufReader.fillLoop]
    simp [PipeReader.Read, List.take_replicate, List.drop_replicate]
  unfold BufReader.ReadLine BufReader.ReadSlice
  rw [BufReader.ReadSliceLoop]
  have h0 : (NewReader ⟨[List.replicate (m + 2 + 1) a]⟩).buf = [] := rfl
  have h1 : (NewReader ⟨[List.replicate (m + 2 + 1) a]⟩).err = none := rfl
  simp only [h0, h1, List.takeWhile_nil, List.length_nil, lt_self_iff_false, if_false,
    Nat.le_zero_eq, Nat.add_eq_zero, OfNat.ofNat_ne_zero, and_false, hfill]
  rw [BufReader.ReadSliceLoop]
  simp only [htw, List.length_replicate, lt_self_iff_false, if_false, le_refl, if_true, hlast]

theorem BufReader.ReadLine_long_second (m a : Nat) (ha : a ≠ 10) :
    (⟨[], none, ⟨[[a]]⟩⟩ : BufReader).ReadLine (m + 2)
      = (([a], false, none), ⟨[], none, ⟨[]⟩⟩) := by
  have htw : List.takeWhile (fun c => decide (c ≠ 10)) [a] = [a] := by simp [ha]
  have hfill1 : (⟨[], none, ⟨[[a]]⟩⟩ : BufReader).fill (m + 2) = ⟨[a], none, ⟨[]⟩⟩ := by
    simp only [BufReader.fill, maxConsecutiveEmptyReads]
    rw [BufReader.fillLoop]
    simp [PipeReader.Read]
  have hfill2 : (⟨[a], none, ⟨[]⟩⟩ : BufReader).fill (m + 2) = ⟨[a], some .EOF, ⟨[]⟩⟩ := by
    simp only [BufReader.fill, maxConsecutiveEmptyReads]
    rw [BufReader.fillLoop]
    simp [PipeReader.Read]
  unfold BufReader.ReadLine BufReader.ReadSlice
  rw [BufReader.ReadSliceLoop]
  simp only [List.takeWhile_nil, List.length_nil, lt_self_iff_false, if_false,
    Nat.le_zero_eq, Nat.add_eq_zero, OfNat.ofNat_ne_zero, and_false, hfill1]
  rw [BufReader.ReadSliceLoop]
  have hroom : ¬ (m + 2 ≤ 1) := by omega
  simp only [htw, List.length_singleton, lt_self_iff_false, if_false, hroom, hfill2]
  rw [BufReader.ReadSliceLoop]
  simp [htw, ha]

theorem BufReader.ReadLine_at_end (m : Nat) :
    (⟨[], none, ⟨[]⟩⟩ : BufReader).ReadLine (m + 2)
      = (([], false, some .EOF), ⟨[], none, ⟨[]⟩⟩) := by
  have hfill : (⟨[], none, ⟨[]⟩⟩ : BufReader).fill (m + 2) = ⟨[], some .EOF, ⟨[]⟩⟩ := by
    simp only [BufReader.fill, maxConsecutiveEmptyReads]
    rw [BufReader.fillLoop]
    simp [PipeReader.Read]
  unfold BufReader.ReadLine BufReader.ReadSlice
  rw [BufReader.ReadSliceLoop]
  simp only [List.takeWhile_nil, List.length_nil, lt_self_iff_false, if_false,
    Nat.le_zero_eq, Nat.add_eq_zero, OfNat.ofNat_ne_zero, and_false, hfill]
  rw [BufReader.ReadSliceLoop]
  simp

/-- A line of `size + 1` bytes, written to the pipe in one piece, comes back from the
read loop of `GetLogs` as two entries. -/
theorem GetLogs.loop_long_line (m a : Nat) (ha : a ≠ 10) (hcr : a ≠ 13) :
    GetLogs.loop (m + 2) (m + 2 + 1 + 1) (NewReader ⟨[List.replicate (m + 2 + 1) a]⟩) []
      = [List.replicate (m + 2) a, [a]] := by
  rw [GetLogs.loop, BufReader.ReadLine_long_first m a ha hcr]
  simp only
  rw [GetLogs.loop, BufReader.ReadLine_long_second m a ha]
  simp only
  rw [GetLogs.loop, BufReader.ReadLine_at_end m]
  simp

theorem first_newline_unique (p q x y : List Nat) (h : p ++ 10 :: x = q ++ 10 :: y)
    (hp : 10 ∉ p) (hq : 10 ∉ q) : p = q ∧ x = y := by
  rcases List.append_eq_append_iff.mp h with ⟨a, ha1, ha2⟩ | ⟨a, ha1, ha2⟩
  · cases a with
    | nil =>
      simp only [List.append_nil, List.nil_append, List.cons.injEq, true_and] at ha1 ha2
      exact ⟨ha1.symm, ha2⟩
    | cons c cs =>
      simp only [List.cons_append, List.cons.injEq] at ha2
      exact absurd (by rw [ha1, ← ha2.1]; simp) hq
  · cases a with
    | nil =>
      simp only [List.append_nil, List.nil_append, List.cons.injEq, true_and] at ha1 ha2
      exact ⟨ha1, ha2.symm⟩
    | cons c cs =>
      simp only [List.cons_append, List.cons.injEq] at ha2
      exact absurd (by rw [ha1, ← ha2.1]; simp) hp

theorem length_le_of_append_eq_newline (buf data pre rest : List Nat)
    (h : buf ++ data = pre ++ 10 :: rest) (hbuf : 10 ∉ buf) : buf.length ≤ pre.length := by
  rcases List.append_eq_append_iff.mp h with ⟨a, ha1, ha2⟩ | ⟨a, ha1, ha2⟩
  · rw [ha1]; simp
  · cases a with
    | nil => simp [ha1]
    | cons c cs =>
      simp only [List.cons_append, List.cons.injEq] at ha2
      exact absurd (by rw [ha1, ← ha2.1]; simp) hbuf

theorem replicate_nil_infix_cons (n : Nat) (w : List Nat) (ws : List (List Nat)) (hw : w ≠ [])
    (h : List.replicate n ([] : List Nat) <:+: w :: ws) :
    List.replicate n ([] : List Nat) <:+: ws := by
  cases n with
  | zero => exact List.nil_infix
  | succ k =>
    rcases List.infix_cons_iff.mp h with hpre | hin
    · rw [List.replicate_succ] at hpre
      have := List.cons_prefix_cons.mp hpre
      exact absurd this.1.symm hw
    · exact hin

/-- A `fill` over writes that do not stall: with bytes still to come it adds at least one
and records no error; with none it records `io.EOF`, and the pipe is drained. -/
theorem BufReader.fillLoop_noStall (size : Nat) : ∀ i b, b.buf.length < size →
    ¬ (List.replicate i ([] : List Nat) <+: b.rd.writes) →
    (b.rd.data ≠ [] →
      (BufReader.fillLoop size i b).err = b.err
      ∧ b.buf.length < (BufReader.fillLoop size i b).buf.length
      ∧ ∀ n, List.replicate n ([] : List Nat) <:+: (BufReader.fillLoop size i b).rd.writes →
          List.replicate n ([] : List Nat) <:+: b.rd.writes)
    ∧ (b.rd.data = [] → BufReader.fillLoop size i b = ⟨b.buf, some .EOF, ⟨[]⟩⟩) := by
  intro i
  induction i with
  | zero => intro b _ h; exact absurd List.nil_prefix h
  | succ k ih =>
    intro b hlt hrun
    rw [BufReader.fillLoop]
    cases hw : b.rd.writes with
    | nil =>
      refine ⟨fun h => absurd (by simp [PipeReader.data, hw]) h, fun _ => ?_⟩
      simp [PipeReader.Read, hw]
      cases hrd : b.rd
      simp [hrd] at hw
      simp [hw]
    | cons w ws =>
      by_cases hc : size - b.buf.length < w.length
      · have hmin : 0 < min (size - b.buf.length) w.length := by omega
        have hwne : w ≠ [] := by intro h0; simp [h0] at hc
        simp only [PipeReader.Read, hw, hc, if_true, Bool.false_eq_true, if_false,
          List.length_take, hmin, List.length_append]
        refine ⟨fun _ => ⟨trivial, by omega, fun n hn => ?_⟩, fun h => ?_⟩
        · have hdrop : w.drop (size - b.buf.length) ≠ [] := by
            intro h0
            have := congrArg List.length h0
            simp only [List.length_drop, List.length_nil] at this
            omega
          exact (replicate_nil_infix_cons n _ ws hdrop hn).trans ⟨[w], [], by simp⟩
        · exact absurd (by simpa [PipeReader.data, hw] using h) (by simp [hwne])
      · simp only [PipeReader.Read, hw, hc, if_false, Bool.false_eq_true]
        by_cases hpos : 0 < w.length
        · have hwne : w ≠ [] := List.length_pos.mp hpos
          simp only [hpos, if_true, List.length_append]
          refine ⟨fun _ => ⟨trivial, by omega, fun n hn => ?_⟩, fun h => ?_⟩
          · exact hn.trans ⟨[w], [], by simp⟩
          · exact absurd (by simpa [PipeReader.data, hw] using h) (by simp [hwne])
        · have hw0 : w = [] := List.length_eq_zero.mp (by omega)
          subst hw0
          simp only [List.length_nil, lt_self_iff_false, if_false, List.append_nil]
          have hrun2 : ¬ (List.replicate k ([] : List Nat) <+: ws) := by
            intro h
            apply hrun
            rw [hw, List.replicate_succ]
            exact List.cons_prefix_cons.mpr ⟨rfl, h⟩
          have h := ih ⟨b.buf, b.err, ⟨ws⟩⟩ hlt hrun2
          refine ⟨fun hd => ?_, fun hd => ?_⟩
          · have hd2 : (⟨ws⟩ : PipeReader).data ≠ [] := by
              simpa [PipeReader.data, hw] using hd
            obtain ⟨h1, h2, h3⟩ := h.1 hd2
            exact ⟨h1, h2, fun n hn => (h3 n hn).trans ⟨[[]], [], by simp⟩⟩
          · have hd2 : (⟨ws⟩ : PipeReader).data = [] := by
              simpa [PipeReader.data, hw] using hd
            exact h.2 hd2

/-- With a line feed among the first `size` bytes still to hand out, and writes that do
not stall, `ReadSlice` returns the bytes up to and including that line feed. -/
theorem BufReader.ReadSliceLoop_of_newline (size : Nat) (pre rest : List Nat)
    (hpre : 10 ∉ pre) (hlen : pre.length < size) : ∀ fuel b,
    b.err = none → NoStall b.rd.writes → b.content = pre ++ 10 :: rest →
    1 ≤ fuel → pre.length + 2 ≤ fuel + b.buf.length →
    ∃ b1, BufReader.ReadSliceLoop size fuel b = (pre ++ [10], none, b1)
      ∧ b1.err = none ∧ NoStall b1.rd.writes ∧ b1.content = rest := by
  intro fuel
  induction fuel with
  | zero => intro b _ _ _ h; omega
  | succ k ih =>
    intro b herr hstall hcontent _ hfuel
    rw [BufReader.ReadSliceLoop]
    rcases takeWhile_ne_newline b.buf with ⟨hnot, htw⟩ | ⟨p, r, hbuf, hp, htw⟩
    · have hle : b.buf.length ≤ pre.length :=
        length_le_of_append_eq_newline b.buf b.rd.data pre rest hcontent hnot
      have hdata : b.rd.data ≠ [] := by
        intro h0
        have : (10 : Nat) ∈ b.buf := by
          have h1 : b.buf = pre ++ 10 :: rest := by
            simpa [BufReader.content, h0] using hcontent
          rw [h1]; simp
        exact hnot this
      have hroom : ¬ size ≤ b.buf.length := by omega
      simp only [htw, lt_self_iff_false, if_false, herr, hroom, BufReader.fill]
      have hf := (BufReader.fillLoop_noStall size maxConsecutiveEmptyReads b (by omega)
        (fun h => hstall h.isInfix)).1 hdata
      have hc := BufReader.fillLoop_content size maxConsecutiveEmptyReads b
      apply ih
      · rw [hf.1, herr]
      · exact fun h => hstall (hf.2.2 _ h)
      · rw [hc, hcontent]
      · omega
      · omega
    · have hcontent2 : p ++ 10 :: (r ++ b.rd.data) = pre ++ 10 :: rest := by
        rw [← hcontent, BufReader.content, hbuf]; simp
      obtain ⟨hpp, hrr⟩ := first_newline_unique p pre _ _ hcontent2 hp hpre
      subst hpp
      have hfound : p.length < b.buf.length := by rw [hbuf]; simp
      simp only [htw, hfound, if_true]
      refine ⟨⟨b.buf.drop (p.length + 1), b.err, b.rd⟩, ?_, herr, hstall, ?_⟩
      · rw [hbuf]
        simp [List.take_append_eq_append_take]
      · rw [← hrr, BufReader.content, hbuf]
        simp [List.drop_append_eq_append_drop]

/-- With no line feed to come, fewer than `size` bytes still to hand out, and writes that
do not stall, `ReadSlice` returns all of them with `io.EOF`, and the pipe is drained. -/
theorem BufReader.ReadSliceLoop_of_last (size : Nat) : ∀ fuel b,
    b.err = none → NoStall b.rd.writes → 10 ∉ b.content → b.content.length < size →
    b.content.length + 2 ≤ fuel + b.buf.length →
    BufReader.ReadSliceLoop size fuel b = (b.content, some .EOF, ⟨[], none, ⟨[]⟩⟩) := by
  intro fuel
  induction fuel with
  | zero =>
    intro b _ _ _ _ h
    simp only [BufReader.content, List.length_append] at h
    omega
  | succ k ih =>
    intro b herr hstall hnot hlen hfuel
    have hnotbuf : 10 ∉ b.buf := fun h => hnot (by simp [BufReader.content, h])
    have htw : b.buf.takeWhile (fun c => c ≠ 10) = b.buf := by
      rcases takeWhile_ne_newline b.buf with ⟨_, h⟩ | ⟨p, r, hd, _, _⟩
      · exact h
      · exact absurd (by rw [hd]; simp) hnotbuf
    have hbuflen : b.buf.length ≤ b.content.length := by simp [BufReader.content]
    have hroom : ¬ size ≤ b.buf.length := by omega
    rw [BufReader.ReadSliceLoop]
    simp only [htw, lt_self_iff_false, if_false, herr, hroom, BufReader.fill]
    have hf := BufReader.fillLoop_noStall size maxConsecutiveEmptyReads b (by omega)
      (fun h => hstall h.isInfix)
    have hc := BufReader.fillLoop_content size maxConsecutiveEmptyReads b
    by_cases hdata : b.rd.data = []
    · rw [hf.2 hdata]
      have hcb : b.content = b.buf := by simp [BufReader.content, hdata]
      have hk : 1 ≤ k := by rw [hcb] at hfuel; omega
      obtain ⟨j, rfl⟩ := Nat.exists_eq_succ_of_ne_zero (Nat.one_le_iff_ne_zero.mp hk)
      rw [BufReader.ReadSliceLoop]
      simp only [htw, lt_self_iff_false, if_false, hcb]
    · have h1 := hf.1 hdata
      rw [← hc]
      apply ih
      · rw [h1.1, herr]
      · exact fun h => hstall (h1.2.2 _ h)
      · rw [hc]; exact hnot
      · rw [hc]; exact hlen
      · rw [hc]; omega

theorem BufReader.ReadLine_of_newline (size : Nat) (pre rest : List Nat) (hpre : 10 ∉ pre)
    (hlen : pre.length < size) (b : BufReader) (herr : b.err = none)
    (hstall : NoStall b.rd.writes) (hcontent : b.content = pre ++ 10 :: rest) :
    ∃ b1, b.ReadLine size
        = ((if pre.getLast? = some 13 then pre.dropLast else pre, false, none), b1)
      ∧ b1.err = none ∧ NoStall b1.rd.writes ∧ b1.content = rest := by
  obtain ⟨b1, hs, h1, h2, h3⟩ := BufReader.ReadSliceLoop_of_newline size pre rest hpre hlen
    (size + 2) b herr hstall hcontent (by omega) (by omega)
  refine ⟨b1, ?_, h1, h2, h3⟩
  simp only [BufReader.ReadLine, BufReader.ReadSlice, hs]
  have hne : pre ++ [10] ≠ [] := by simp
  simp only [reduceCtorEq, if_false, hne, List.getLast?_concat, if_true,
    List.dropLast_concat, List.length_append, List.length_singleton]
  by_cases hcr : pre.getLast? = some 13
  · have hpos : 1 < pre.length + 1 := by
      cases pre with
      | nil => simp at hcr
      | cons c cs => simp
    have htake : List.take (pre.length + 1 - 2) (pre ++ [10]) = pre.dropLast := by
      rw [List.take_append_of_le_length (by omega), List.dropLast_eq_take]
      congr 1
    simp only [hcr, hpos, and_self, if_true, htake]
  · have htake : List.take (pre.length + 1 - 1) (pre ++ [10]) = pre := by
      simp
    simp only [hcr, and_false, if_false, htake]

theorem BufReader.ReadLine_drained (size : Nat) (hsize : 0 < size) :
    (⟨[], none, ⟨[]⟩⟩ : BufReader).ReadLine size
      = (([], false, some .EOF), ⟨[], none, ⟨[]⟩⟩) := by
  have hs := BufReader.ReadSliceLoop_of_last size (size + 2) ⟨[], none, ⟨[]⟩⟩ rfl
    (by simp [NoStall, maxConsecutiveEmptyReads, List.replicate_succ])
    (by simp [BufReader.content, PipeReader.data])
    (by simpa [BufReader.content, PipeReader.data] using hsize)
    (by simp [BufReader.content, PipeReader.data])
  simp only [BufReader.ReadLine, BufReader.ReadSlice, hs]
  simp [BufReader.content, PipeReader.data]

theorem BufReader.ReadLine_of_last (size : Nat) (b : BufReader) (herr : b.err = none)
    (hstall : NoStall b.rd.writes) (hnot : 10 ∉ b.content) (hne : b.content ≠ [])
    (hlen : b.content.length < size) :
    b.ReadLine size = ((b.content, false, none), ⟨[], none, ⟨[]⟩⟩) := by
  have hs := BufReader.ReadSliceLoop_of_last size (size + 2) b herr hstall hnot hlen (by omega)
  simp only [BufReader.ReadLine, BufReader.ReadSlice, hs]
  have hlast : b.content.getLast? ≠ some 10 := by
    intro h
    exact hnot (List.mem_of_getLast?_eq_some h)
  simp [hne, hlast]

/-- When the writes to the pipe do not stall the reader and every run of bytes without a
line feed is shorter than the buffer, the read loop of `GetLogs` yields the lines of the
stream. -/
theorem GetLogs.loop_eq_splitLines (size : Nat) : ∀ fuel b,
    b.err = none → NoStall b.rd.writes →
    (∀ seg, seg <:+: b.content → 10 ∉ seg → seg.length < size) → b.content.length < fuel →
    GetLogs.loop size fuel b [] = splitLines b.content := by
  intro fuel
  induction fuel with
  | zero => intro b _ _ _ h; simp at h
  | succ k ih =>
    intro b herr hstall hfit hfuel
    have hsize : 0 < size := by simpa using hfit [] List.nil_infix (by simp)
    rcases takeWhile_ne_newline b.content with ⟨hnot, _⟩ | ⟨pre, rest, hd, hpre, _⟩
    · by_cases hne : b.content = []
      · have h0 : b.content.length = 0 := by rw [hne]; rfl
        have hs := BufReader.ReadSliceLoop_of_last size (size + 2) b herr hstall hnot
          (by omega) (by omega)
        rw [GetLogs.loop]
        simp only [BufReader.ReadLine, BufReader.ReadSlice, hs, hne]
        simp [splitLines, splitLines.go]
      · have hlen := hfit b.content (List.infix_refl _) hnot
        rw [GetLogs.loop, BufReader.ReadLine_of_last size b herr hstall hnot hne hlen]
        simp only [splitLines, splitLines.go_of_last _ hnot]
        cases k with
        | zero =>
          have : b.content.length = 0 := by omega
          exact absurd (List.length_eq_zero.mp this) hne
        | succ j =>
          rw [GetLogs.loop, BufReader.ReadLine_drained size hsize]
          simp [hne]
    · have hlen := hfit pre ⟨[], 10 :: rest, by simp [hd]⟩ hpre
      obtain ⟨b1, hr, h1, h2, h3⟩ := BufReader.ReadLine_of_newline size pre rest hpre hlen b herr
        hstall hd
      have hrest : ∀ seg, seg <:+: b1.content → 10 ∉ seg → seg.length < size := by
        intro seg hseg h10
        rw [h3] at hseg
        exact hfit seg (hseg.trans ⟨pre ++ [10], [], by simp [hd]⟩) h10
      have hk : b1.content.length < k := by
        rw [h3]
        rw [hd] at hfuel
        simp only [List.length_append, List.length_cons] at hfuel
        omega
      rw [GetLogs.loop, hr]
      simp only
      rw [GetLogs.loop_acc, ih b1 h1 h2 hrest hk, h3, hd]
      simp only [splitLines, splitLines.go_of_newline pre rest hpre]
      simp

/-- `GetLogs` once the engine has opened the stream: the entries the read loop finds
with a fresh buffered reader over the pipe of `demuxLogsReader`. -/
theorem GetLogs_of_open (t : Service) (since tail : GoString) (reader : Reader)
    (hopen : t.client.ContainerLogs t.ContainerName ⟨true, true, since, tail, false⟩ = .ok reader) :
    t.GetLogs since tail
      = (GetLogs.loop defaultBufSize ((t.demuxLogsReader reader).data.length + 1)
          (NewReader (t.demuxLogsReader reader)) [], none) := by
  simp only [Service.GetLogs, hopen]

/-- When the engine opens the stream, the writes to the pipe do not stall the line
reader, and every run of decoded bytes without a line feed is shorter than the buffer
of the line reader, `GetLogs` returns the lines of the decoded stream, terminators
stripped, and no error. -/
theorem GetLogs_eq_splitLines_of_short_lines (t : Service) (since tail : GoString)
    (reader : Reader)
    (hopen : t.client.ContainerLogs t.ContainerName ⟨true, true, since, tail, false⟩ = .ok reader)
    (hstall : NoStall (t.demuxLogsReader reader).writes)
    (hfit : ∀ seg, seg <:+: (t.demuxLogsReader reader).data → 10 ∉ seg →
      seg.length < defaultBufSize) :
    t.GetLogs since tail = (splitLines (t.demuxLogsReader reader).data, none) := by
  rw [GetLogs_of_open t since tail reader hopen]
  have h := GetLogs.loop_eq_splitLines defaultBufSize
    ((t.demuxLogsReader reader).data.length + 1) (NewReader (t.demuxLogsReader reader)) rfl
    hstall (by simpa [BufReader.content, NewReader] using hfit)
    (by simp [BufReader.content, NewReader])
  rw [h]
  simp [BufReader.content, NewReader]

/-- The entries of a log stream that reaches the pipe as one write of 4097 bytes `a`. -/
theorem GetLogs.loop_long_line_4097 :
    GetLogs.loop defaultBufSize 4098 (NewReader ⟨[List.replicate 4097 97]⟩) []
      = [List.replicate 4096 97, [97]] := by
  have h := GetLogs.loop_long_line 4094 97 (by decide) (by decide)
  simp only [Nat.reduceAdd] at h
  exact h

theorem logService_demux_long_line :
    (logService [⟨.Stdout, List.replicate 4097 97⟩]).demuxLogsReader
        ⟨encodeFrames [⟨.Stdout, List.replicate 4097 97⟩], none⟩
      = ⟨[List.replicate 4097 97]⟩ := by
  have hwf : ∀ f ∈ [(⟨.Stdout, List.replicate 4097 97⟩ : Frame)], f.WellFormed := by
    intro f hf
    rw [List.mem_singleton] at hf
    subst hf
    exact ⟨Or.inl rfl, by simp only [List.length_replicate]; norm_num⟩
  rw [demuxLogsReader_encodeFrames _ _ hwf none]
  rfl

/-! ## Remote exec -/

/-- C1. When the create, attach, drain and inspect steps of `Exec` all succeed, with
captured combined buffer `b` and inspected exit code `c`, `Exec` returns no error if and
only if `c = 0`; for `c = 0` it returns exactly `b`, untrimmed, and no error; for
`c ≠ 0` it returns an `ErrExec` whose `ExitCode` is `c` and whose `Output` is `b`. -/
theorem Exec_succeeds_iff_exit_code_zero (t : Service) (name : GoString) (args : List GoString)
    (execId : GoString) (attachResp : Reader) (b : GoString) (c : Int)
    (hcreate : t.client.ContainerExecCreate t.ContainerName
      ⟨name :: args, false, false, true, true⟩ = .ok execId)
    (hattach : t.client.ContainerExecAttach execId ⟨false, false⟩ = .ok attachResp)
    (hdrain : (StdCopy attachResp).err = none)
    (hbuf : sameWriter (StdCopy attachResp).writes = b)
    (hinspect : t.client.ContainerExecInspect execId = .ok c) :
    ((t.Exec name args).err = none ↔ c = 0)
    ∧ (c = 0 → (t.Exec name args).output = b ∧ (t.Exec name args).err = none)
    ∧ (c ≠ 0 → ∃ e : ErrExec, (t.Exec name args).err = some (.errExec e)
        ∧ e.ExitCode = c ∧ e.Output = b) := by
  have h := Exec_of_steps_ok t name args execId attachResp c hcreate hattach hdrain hinspect
  rw [hbuf] at h
  by_cases hc : c = 0
  · simp only [hc, ne_eq, not_true_eq_false, if_false, Prod.mk.injEq] at h
    simp [hc, h.1, h.2]
  · simp only [ne_eq, hc, not_false_eq_true, if_true, Prod.mk.injEq] at h
    simp [hc, h.2]

/-- C1, instance: `echo hi` printing `hi\n` and exiting with code 0 returns `hi\n` and no
error. -/
theorem Exec_succeeds_iff_exit_code_zero_witness :
    ((execService (lit "hi\n") 0).Exec (lit "echo") [lit "hi"]).output = lit "hi\n"
    ∧ ((execService (lit "hi\n") 0).Exec (lit "echo") [lit "hi"]).err = none :=
  (Exec_succeeds_iff_exit_code_zero (execService (lit "hi\n") 0) (lit "echo") [lit "hi"]
    (lit "exec-1") ⟨encodeFrames [⟨.Stdout, lit "hi\n"⟩], none⟩ (lit "hi\n") 0
    rfl rfl (by decide) (by decide) rfl).2.1 rfl

/-- C2, as stated, fails: for the command `false` with no output and exit code 1 the
failure has exit code 1 and the message
`[docker] command "false" exits with non-zero code 1: `, which does not contain the
text `exit code 1`. -/
theorem Exec_false_message_lacks_exit_code_1 :
    ((execService (lit "") 1).Exec (lit "false") []).err
      = some (.errExec ⟨lit "", 1, lit "[docker] command \"false\" exits with non-zero code 1: "⟩)
    ∧ ¬ (lit "exit code 1" <:+: lit "[docker] command \"false\" exits with non-zero code 1: ") := by
  constructor
  · decide
  · decide

/-- C2, amended. For the command `false` with no arguments and inspected exit code 1,
`Exec` returns an `ErrExec` whose exit code is 1 and whose message is
`[docker] command "false" exits with non-zero code 1: ` followed by the trimmed buffer;
the message contains the text `false` and the text `exits with non-zero code 1`. -/
theorem Exec_false_exit_1 (t : Service) (execId : GoString) (attachResp : Reader) (b : GoString)
    (hcreate : t.client.ContainerExecCreate t.ContainerName
      ⟨[lit "false"], false, false, true, true⟩ = .ok execId)
    (hattach : t.client.ContainerExecAttach execId ⟨false, false⟩ = .ok attachResp)
    (hdrain : (StdCopy attachResp).err = none)
    (hbuf : sameWriter (StdCopy attachResp).writes = b)
    (hinspect : t.client.ContainerExecInspect execId = .ok 1) :
    ∃ e : ErrExec, (t.Exec (lit "false") []).err = some (.errExec e)
      ∧ e.ExitCode = 1
      ∧ e.Message = lit "[docker] command \"false\" exits with non-zero code 1: " ++ TrimSpace b
      ∧ lit "false" <:+: e.Message
      ∧ lit "exits with non-zero code 1" <:+: e.Message := by
  have h := Exec_of_steps_ok t (lit "false") [] execId attachResp 1 hcreate hattach hdrain hinspect
  rw [hbuf] at h
  simp only [ne_eq, one_ne_zero, not_false_eq_true, if_true, Prod.mk.injEq] at h
  refine ⟨_, h.2, rfl, ?_, ?_, ?_⟩
  · show Exec.msg (lit "false") [] 1 b = _
    simp only [Exec.msg, Join]
    have : lit "[docker] command \"" ++ lit "false" ++ lit "\" exits with non-zero code "
        ++ formatInt 1 ++ lit ": "
        = lit "[docker] command \"false\" exits with non-zero code 1: " := by decide
    rw [← this]
  · show lit "false" <:+: Exec.msg (lit "false") [] 1 b
    exact ⟨lit "[docker] command \"", lit "\" exits with non-zero code " ++ formatInt 1
      ++ lit ": " ++ TrimSpace b, by simp [Exec.msg, Join]⟩
  · show lit "exits with non-zero code 1" <:+: Exec.msg (lit "false") [] 1 b
    refine ⟨lit "[docker] command \"false\" ", lit ": " ++ TrimSpace b, ?_⟩
    have : lit "[docker] command \"false\" " ++ lit "exits with non-zero code 1"
        = lit "[docker] command \"" ++ lit "false" ++ lit "\" exits with non-zero code "
          ++ formatInt 1 := by decide
    simp only [Exec.msg, Join, ← List.append_assoc]
    rw [this]

/-- C2, amended, instance: `false` with no output. -/
theorem Exec_false_exit_1_witness :
    ∃ e : ErrExec, ((execService (lit "") 1).Exec (lit "false") []).err = some (.errExec e)
      ∧ e.ExitCode = 1
      ∧ e.Message = lit "[docker] command \"false\" exits with non-zero code 1: " ++ TrimSpace (lit "")
      ∧ lit "false" <:+: e.Message
      ∧ lit "exits with non-zero code 1" <:+: e.Message :=
  Exec_false_exit_1 (execService (lit "") 1) (lit "exec-1") ⟨encodeFrames [⟨.Stdout, lit ""⟩], none⟩
    (lit "") rfl rfl (by decide) (by decide) rfl

/-- C3. For every command name, argument list, non-zero exit code `c` and captured buffer
`b`, the failure `Exec` returns has the message `Exec.msg name args c b`, a function of
these four values only, and the message contains the command line (the name and the
arguments joined with single spaces, the bare name when there are no arguments), the
decimal rendering of `c`, and `b` with leading and trailing white space trimmed: `b` is
a run of white-space characters, the trimmed part, and a run of white-space characters,
and the trimmed part neither starts nor ends with a white-space character. -/
theorem Exec_failure_message (t : Service) (name : GoString) (args : List GoString)
    (execId : GoString) (attachResp : Reader) (b : GoString) (c : Int)
    (hcreate : t.client.ContainerExecCreate t.ContainerName
      ⟨name :: args, false, false, true, true⟩ = .ok execId)
    (hattach : t.client.ContainerExecAttach execId ⟨false, false⟩ = .ok attachResp)
    (hdrain : (StdCopy attachResp).err = none)
    (hbuf : sameWriter (StdCopy attachResp).writes = b)
    (hinspect : t.client.ContainerExecInspect execId = .ok c)
    (hc : c ≠ 0) :
    (t.Exec name args).err = some (.errExec ⟨b, c, Exec.msg name args c b⟩)
    ∧ Exec.msg name args c b
        = lit "[docker] command \"" ++ commandLine name args
          ++ lit "\" exits with non-zero code " ++ lit (toString c) ++ lit ": " ++ TrimSpace b
    ∧ commandLine name args <:+: Exec.msg name args c b
    ∧ commandLine name [] = name
    ∧ lit (toString c) <:+: Exec.msg name args c b
    ∧ TrimSpace b <:+: Exec.msg name args c b
    ∧ ∃ lead trail : List Nat, IsSpaceRun lead ∧ IsSpaceRun trail
        ∧ b = lead ++ TrimSpace b ++ trail
        ∧ ∀ e ∈ spaceEncodings, ¬ e <+: TrimSpace b ∧ ¬ e <:+ TrimSpace b := by
  have h := Exec_of_steps_ok t name args execId attachResp c hcreate hattach hdrain hinspect
  rw [hbuf] at h
  simp only [ne_eq, hc, not_false_eq_true, if_true, Prod.mk.injEq] at h
  have hmsg : Exec.msg name args c b
        = lit "[docker] command \"" ++ commandLine name args
          ++ lit "\" exits with non-zero code " ++ lit (toString c) ++ lit ": " ++ TrimSpace b := by
    simp only [Exec.msg, Join_cons_eq_commandLine, formatInt_eq_toString]
  refine ⟨h.2, hmsg, ?_, ?_, ?_, ?_, TrimSpace_spec b⟩
  · rw [hmsg]
    exact ⟨lit "[docker] command \"",
      lit "\" exits with non-zero code " ++ lit (toString c) ++ lit ": " ++ TrimSpace b,
      by simp only [List.append_assoc]⟩
  · simp [commandLine]
  · rw [hmsg]
    exact ⟨lit "[docker] command \"" ++ commandLine name args
      ++ lit "\" exits with non-zero code ", lit ": " ++ TrimSpace b,
      by simp only [List.append_assoc]⟩
  · rw [hmsg]
    exact (List.suffix_append _ _).isInfix

/-- C3, instance: `ls -l /nope` printing a padded error text and exiting with code 2. -/
theorem Exec_failure_message_witness :
    ((execService (lit " ls: /nope: No such file\n") 2).Exec (lit "ls") [lit "-l", lit "/nope"]).err
      = some (.errExec ⟨lit " ls: /nope: No such file\n", 2,
          Exec.msg (lit "ls") [lit "-l", lit "/nope"] 2 (lit " ls: /nope: No such file\n")⟩)
    ∧ Exec.msg (lit "ls") [lit "-l", lit "/nope"] 2 (lit " ls: /nope: No such file\n")
      = lit "[docker] command \"ls -l /nope\" exits with non-zero code 2: ls: /nope: No such file" := by
  have h := Exec_failure_message (execService (lit " ls: /nope: No such file\n") 2) (lit "ls")
    [lit "-l", lit "/nope"] (lit "exec-1")
    ⟨encodeFrames [⟨.Stdout, lit " ls: /nope: No such file\n"⟩], none⟩
    (lit " ls: /nope: No such file\n") 2 rfl rfl (by decide) (by decide) rfl (by decide)
  exact ⟨h.1, by decide⟩

theorem ExecStep.label_injective : Function.Injective ExecStep.label := by
  intro a b h
  cases a <;> cases b <;> first | rfl | (exact absurd h (by decide))

/-- C4. If a step of `Exec` (create, attach, drain, inspect) is the first to fail, with
error `e`, then `Exec` returns an empty output and an error that is not an `ErrExec`,
wraps `e`, and has as text the label of that step followed by the text of `e`; the
labels of the four steps are pairwise distinct; the calls made are those of the steps up
to the failed one and no later one, so the exit code is inspected only if the inspection
itself is the failed step, and the result does not depend on what an inspection would
have answered. -/
theorem Exec_step_failure (t : Service) (name : GoString) (args : List GoString)
    (step : ExecStep) (e : ExtError) (hfail : FailsFirstAt t name args e step) :
    (t.Exec name args).output = lit ""
    ∧ (∃ err, (t.Exec name args).err = some err ∧ err.isErrExec = false
        ∧ err.Unwrap = some e ∧ err.wrapText = some (step.label ++ e.text)
        ∧ step.label <:+: step.label ++ e.text)
    ∧ Function.Injective ExecStep.label
    ∧ (t.Exec name args).calls.map ExecCall.step = step.upTo
    ∧ (step ≠ .inspect →
        ExecStep.inspect ∉ (t.Exec name args).calls.map ExecCall.step
        ∧ ∀ insp, (t.withExecInspect insp).Exec name args = t.Exec name args) := by
  cases step with
  | create =>
    simp only [FailsFirstAt] at hfail
    refine ⟨?_, ⟨Errorf_w (ExecStep.label .create) e, ?_, rfl, rfl, rfl,
      (List.prefix_append _ _).isInfix⟩, ExecStep.label_injective, ?_, fun _ => ⟨?_, ?_⟩⟩
    · simp [Service.Exec, hfail]
    · simp [Service.Exec, hfail, ExecStep.label]
    · simp [Service.Exec, hfail, ExecCall.step, ExecStep.upTo]
    · simp [Service.Exec, hfail, ExecCall.step]
    · intro insp
      simp [Service.Exec, Service.withExecInspect, hfail]
  | attach =>
    obtain ⟨execId, hcreate, hattach⟩ := hfail
    refine ⟨?_, ⟨Errorf_w (ExecStep.label .attach) e, ?_, rfl, rfl, rfl,
      (List.prefix_append _ _).isInfix⟩, ExecStep.label_injective, ?_, fun _ => ⟨?_, ?_⟩⟩
    · simp [Service.Exec, hcreate, hattach]
    · simp [Service.Exec, hcreate, hattach, ExecStep.label]
    · simp [Service.Exec, hcreate, hattach, ExecCall.step, ExecStep.upTo]
    · simp [Service.Exec, hcreate, hattach, ExecCall.step]
    · intro insp
      simp [Service.Exec, Service.withExecInspect, hcreate, hattach]
  | drain =>
    obtain ⟨execId, attachResp, hcreate, hattach, hdrain⟩ := hfail
    refine ⟨?_, ⟨Errorf_w (ExecStep.label .drain) e, ?_, rfl, rfl, rfl,
      (List.prefix_append _ _).isInfix⟩, ExecStep.label_injective, ?_, fun _ => ⟨?_, ?_⟩⟩
    · simp [Service.Exec, hcreate, hattach, hdrain]
    · simp [Service.Exec, hcreate, hattach, hdrain, ExecStep.label]
    · simp [Service.Exec, hcreate, hattach, hdrain, ExecCall.step, ExecStep.upTo]
    · simp [Service.Exec, hcreate, hattach, hdrain, ExecCall.step]
    · intro insp
      simp [Service.Exec, Service.withExecInspect, hcreate, hattach, hdrain]
  | inspect =>
    obtain ⟨execId, attachResp, hcreate, hattach, hdrain, hinspect⟩ := hfail
    refine ⟨?_, ⟨Errorf_w (ExecStep.label .inspect) e, ?_, rfl, rfl, rfl,
      (List.prefix_append _ _).isInfix⟩, ExecStep.label_injective, ?_, fun h => absurd rfl h⟩
    · simp [Service.Exec, hcreate, hattach, hdrain, hinspect]
    · simp [Service.Exec, hcreate, hattach, hdrain, hinspect, ExecStep.label]
    · simp [Service.Exec, hcreate, hattach, hdrain, hinspect, ExecCall.step, ExecStep.upTo]

/-- C4, instance: a transport error during the drain, after a frame was copied; the
inspection, which would have reported exit code 0, is not asked. -/
theorem Exec_step_failure_witness :
    (cutStreamService.Exec (lit "echo") [lit "hi"]).output = lit ""
    ∧ (cutStreamService.Exec (lit "echo") [lit "hi"]).err
        = some (.wrapError (lit "[docker] stdcopy: connection reset by peer") connectionReset)
    ∧ (cutStreamService.Exec (lit "echo") [lit "hi"]).calls.map ExecCall.step
        = [.create, .attach, .drain] := by
  have h := Exec_step_failure cutStreamService (lit "echo") [lit "hi"] .drain connectionReset
    ⟨lit "exec-1", ⟨encodeFrames [⟨.Stdout, lit "partial"⟩], some connectionReset⟩, rfl, rfl,
      by decide⟩
  exact ⟨h.1, by decide, h.2.2.2.1⟩

/-! ## Stream demultiplexer -/

/-- C5. For every finite sequence of frames, each tagged stdout or stderr and carrying a
payload that fits the size field, the demultiplexed bytes are the payloads concatenated
in arrival order: `StdCopy` makes one write per frame, with the payload alone, and
reports no error; the pipe reader of `demuxLogsReader` receives these writes, delivers
their concatenation and then ends; the buffer `Exec` fills holds the same bytes, which
`Exec` returns when the exit code is 0. -/
theorem demux_concatenates_payloads (t : Service) (frames : List Frame)
    (hwf : ∀ f ∈ frames, f.WellFormed) :
    StdCopy ⟨encodeFrames frames, none⟩
      = ⟨frames.map (fun f => (f.dst, f.payload)), (payloads frames).length, none⟩
    ∧ t.demuxLogsReader ⟨encodeFrames frames, none⟩ = ⟨frames.map Frame.payload⟩
    ∧ (t.demuxLogsReader ⟨encodeFrames frames, none⟩).data = payloads frames
    ∧ sameWriter (StdCopy ⟨encodeFrames frames, none⟩).writes = payloads frames
    ∧ (∀ name args execId,
        t.client.ContainerExecCreate t.ContainerName ⟨name :: args, false, false, true, true⟩
          = .ok execId →
        t.client.ContainerExecAttach execId ⟨false, false⟩ = .ok ⟨encodeFrames frames, none⟩ →
        t.client.ContainerExecInspect execId = .ok 0 →
        (t.Exec name args).output = (t.demuxLogsReader ⟨encodeFrames frames, none⟩).data
        ∧ (t.Exec name args).output = payloads frames) := by
  have hcopy := StdCopy_encodeFrames frames hwf none
  have hdemux := demuxLogsReader_encodeFrames t frames hwf none
  have hdata : (t.demuxLogsReader ⟨encodeFrames frames, none⟩).data = payloads frames := by
    rw [hdemux]
    rfl
  have hbuf : sameWriter (StdCopy ⟨encodeFrames frames, none⟩).writes = payloads frames := by
    have h := sameWriter_map frames []
    simp only [List.nil_append] at h
    rw [hcopy, StdCopy.srcEnd_writes, h]
    simp [sameWriter]
  refine ⟨hcopy, hdemux, hdata, hbuf, ?_⟩
  intro name args execId hcreate hattach hinspect
  have hdrain : (StdCopy ⟨encodeFrames frames, none⟩).err = none := by rw [hcopy]; rfl
  have h := Exec_of_steps_ok t name args execId _ 0 hcreate hattach hdrain hinspect
  simp only [ne_eq, not_true_eq_false, if_false, Prod.mk.injEq, hbuf] at h
  rw [hdata]
  exact ⟨h.1, h.1⟩

/-- C5, instance: a stdout frame `ab`, an empty stderr frame and a stderr frame `cd`
decode to `abcd`. -/
theorem demux_concatenates_payloads_witness :
    ((exampleService (stubClient (.error noSuchContainer) (.error noSuchContainer)
        (.error noSuchContainer) (.error noSuchContainer) (.error noSuchContainer))).demuxLogsReader
      ⟨encodeFrames [⟨.Stdout, lit "ab"⟩, ⟨.Stderr, lit ""⟩, ⟨.Stderr, lit "cd"⟩], none⟩).data
      = lit "abcd" :=
  (demux_concatenates_payloads _ [⟨.Stdout, lit "ab"⟩, ⟨.Stderr, lit ""⟩, ⟨.Stderr, lit "cd"⟩]
    (by decide)).2.2.1

/-! ## Log access -/

/-- C6, at a failing input: a log stream that is one line of 4097 bytes `a`, in one
stdout frame, without terminator.  Its only line is the 4097 bytes, and `GetLogs`
returns two entries, the first 4096 bytes and the last byte. -/
theorem GetLogs_splits_long_line :
    (logService [⟨.Stdout, List.replicate 4097 97⟩]).GetLogs (lit "") (lit "10")
      = ([List.replicate 4096 97, [97]], none)
    ∧ splitLines (List.replicate 4097 97) = [List.replicate 4097 97] := by
  constructor
  · have hopen : (logService [⟨.Stdout, List.replicate 4097 97⟩]).client.ContainerLogs
        (logService [⟨.Stdout, List.replicate 4097 97⟩]).ContainerName
        ⟨true, true, lit "", lit "10", false⟩
        = .ok ⟨encodeFrames [⟨.Stdout, List.replicate 4097 97⟩], none⟩ := rfl
    rw [GetLogs_of_open _ _ _ _ hopen, logService_demux_long_line]
    simp only [PipeReader.data, List.flatten_cons, List.flatten_nil, List.append_nil,
      List.length_replicate, Nat.reduceAdd]
    rw [GetLogs.loop_long_line_4097]
  · exact splitLines_replicate 4097 97 (by decide) (by decide)

/-- Three lines spread over three frames, retrieved with `tail` set to `10`: `GetLogs`
returns the three lines, in order, and nothing else. -/
theorem GetLogs_three_lines :
    (logService [⟨.Stdout, lit "one\ntw"⟩, ⟨.Stderr, lit "o\r\n"⟩,
        ⟨.Stdout, lit "three\n"⟩]).GetLogs (lit "") (lit "10")
      = ([lit "one", lit "two", lit "three"], none) := by
  decide

set_option maxRecDepth 100000 in
/-- A line, a hundred empty frames and a second line: the hundred empty writes to the
pipe make the line reader give up with `io.ErrNoProgress`, and `GetLogs` returns the
first line only; with ninety-nine empty frames it returns both. -/
theorem GetLogs_gives_up_after_empty_frames :
    (logService ([⟨.Stdout, lit "a\n"⟩] ++ List.replicate 100 ⟨.Stdout, []⟩
        ++ [⟨.Stdout, lit "b\n"⟩])).GetLogs (lit "") (lit "10") = ([lit "a"], none)
    ∧ (logService ([⟨.Stdout, lit "a\n"⟩] ++ List.replicate 99 ⟨.Stdout, []⟩
        ++ [⟨.Stdout, lit "b\n"⟩])).GetLogs (lit "") (lit "10") = ([lit "a", lit "b"], none) := by
  constructor <;> decide

/-- Once the engine has opened the following stream, whatever the stream delivers and
whatever ends it, the goroutine of `FollowLogs` sends the entries of the line reader in
order, then the marker `--- EOF ---`, and then closes the channel.  The entries are the
list `GetLogs` returns when its stream reaches the pipe in the same writes; they are the
lines of the decoded stream when the writes do not stall the line reader and every run
without a line feed is shorter than its buffer. -/
theorem FollowLogs_entries_then_marker (t : Service) (since tail : GoString) (reader : Reader)
    (hopen : t.client.ContainerLogs t.ContainerName ⟨true, true, since, tail, true⟩ = .ok reader) :
    ∃ lines : List GoString,
      t.FollowLogs since tail
        = .ok (lines.map ChanOp.send ++ [.send (lit "--- EOF ---"), .close])
      ∧ (∀ snapshot,
          t.client.ContainerLogs t.ContainerName ⟨true, true, since, tail, false⟩ = .ok snapshot →
          t.demuxLogsReader snapshot = t.demuxLogsReader reader →
          t.GetLogs since tail = (lines, none))
      ∧ (NoStall (t.demuxLogsReader reader).writes →
          (∀ seg, seg <:+: (t.demuxLogsReader reader).data → 10 ∉ seg →
            seg.length < defaultBufSize) →
          lines = splitLines (t.demuxLogsReader reader).data) := by
  refine ⟨GetLogs.loop defaultBufSize ((t.demuxLogsReader reader).data.length + 1)
    (NewReader (t.demuxLogsReader reader)) [], ?_, ?_, ?_⟩
  · simp only [Service.FollowLogs, hopen, FollowLogs.loop_eq, List.append_assoc,
      List.singleton_append]
  · intro snapshot hsnap hsame
    rw [GetLogs_of_open t since tail snapshot hsnap, hsame]
  · intro hstall hfit
    have h := GetLogs.loop_eq_splitLines defaultBufSize
      ((t.demuxLogsReader reader).data.length + 1) (NewReader (t.demuxLogsReader reader)) rfl
      hstall (by simpa [BufReader.content, NewReader] using hfit)
      (by simp [BufReader.content, NewReader])
    rw [h]
    simp [BufReader.content, NewReader]

/-- C7, at a failing input: a followed log stream that is one line of 4097 bytes `a`, in
one stdout frame, and then ends.  Its only line is the 4097 bytes, and the goroutine of
`FollowLogs` sends two values for it, the first 4096 bytes and the last byte, before the
marker `--- EOF ---` and the close. -/
theorem FollowLogs_splits_long_line :
    (logService [⟨.Stdout, List.replicate 4097 97⟩]).FollowLogs (lit "") (lit "10")
      = .ok [.send (List.replicate 4096 97), .send [97], .send (lit "--- EOF ---"), .close]
    ∧ splitLines (List.replicate 4097 97) = [List.replicate 4097 97] := by
  constructor
  · have hopen : (logService [⟨.Stdout, List.replicate 4097 97⟩]).client.ContainerLogs
        (logService [⟨.Stdout, List.replicate 4097 97⟩]).ContainerName
        ⟨true, true, lit "", lit "10", true⟩
        = .ok ⟨encodeFrames [⟨.Stdout, List.replicate 4097 97⟩], none⟩ := rfl
    simp only [Service.FollowLogs, hopen, logService_demux_long_line, FollowLogs.loop_eq,
      PipeReader.data, List.flatten_cons, List.flatten_nil, List.append_nil,
      List.length_replicate, Nat.reduceAdd]
    rw [GetLogs.loop_long_line_4097]
    rfl
  · exact splitLines_replicate 4097 97 (by decide) (by decide)

/-! ## Status -/

/-- C8. `IsRunning` returns a boolean and no error; it is false whenever the inspection
of the container fails; it is true if and only if `GetStatus` succeeds with exactly the
string `Container running`; `GetStatus`, when the inspection succeeds, is `Container `
followed by the raw state status; hence `IsRunning` is true if and only if the
inspection succeeds and the raw state status is exactly `running`. -/
theorem IsRunning_iff_status_running (t : Service) :
    (∀ err, t.client.ContainerInspect t.ContainerName = .error err →
        t.IsRunning = false ∧ t.GetStatus = (lit "", some err))
    ∧ (∀ c, t.client.ContainerInspect t.ContainerName = .ok c →
        t.GetStatus = (lit "Container " ++ c.Status, none))
    ∧ (t.IsRunning = true ↔ t.GetStatus = (lit "Container running", none))
    ∧ (t.IsRunning = true ↔
        ∃ c, t.client.ContainerInspect t.ContainerName = .ok c ∧ c.Status = lit "running") := by
  have hsplit : lit "Container running" = lit "Container " ++ lit "running" := by decide
  cases hinsp : t.client.ContainerInspect t.ContainerName with
  | error err =>
    have hst : t.GetStatus = (lit "", some err) := by
      simp [Service.GetStatus, Service.getContainer, hinsp]
    have hrun : t.IsRunning = false := by simp [Service.IsRunning, hst]
    refine ⟨fun err2 h => ?_, fun c h => ?_, ?_, ?_⟩
    · cases h
      exact ⟨hrun, hst⟩
    · cases h
    · simp [hrun, hst]
    · simp [hrun]
  | ok c =>
    have hst : t.GetStatus = (lit "Container " ++ c.Status, none) := by
      simp [Service.GetStatus, Service.getContainer, hinsp]
    have hrun : t.IsRunning = true ↔ c.Status = lit "running" := by
      simp only [Service.IsRunning, hst, decide_eq_true_eq, hsplit]
      exact List.append_right_inj _
    refine ⟨fun err h => ?_, fun c2 h => ?_, ?_, ?_⟩
    · cases h
    · cases h
      exact hst
    · rw [hrun, hst, hsplit]
      simp
    · rw [hrun]
      simp

/-- C8, instance: a container that runs, one whose status differs in case, one whose
status has a trailing space, and one that cannot be resolved. -/
theorem IsRunning_iff_status_running_witness :
    (statusService (lit "running")).IsRunning = true
    ∧ (statusService (lit "Running")).IsRunning = false
    ∧ (statusService (lit "running ")).IsRunning = false
    ∧ (exampleService (stubClient (.error noSuchContainer) (.error noSuchContainer)
        (.error noSuchContainer) (.error noSuchContainer) (.error noSuchContainer))).IsRunning
        = false := by
  refine ⟨?_, by decide, by decide, ?_⟩
  · exact (IsRunning_iff_status_running (statusService (lit "running"))).2.2.2.mpr
      ⟨⟨lit "running", lit "2021-01-01T00:00:00Z"⟩, rfl, rfl⟩
  · exact ((IsRunning_iff_status_running _).1 noSuchContainer rfl).1

/-! ## Data directory -/

/-- C9. If the ordinary recursive removal of the data directory succeeds, `RemoveData`
returns no error and runs no command; if it fails, `RemoveData` runs
`sudo rm -rf` on the same path exactly once and returns the outcome of that command,
whatever the original failure was. -/
theorem RemoveData_fallback (t : Service) (os : OS) :
    (os.RemoveAll t.DataDir = none →
        (t.RemoveData os).1 = none
        ∧ (t.RemoveData os).2 = [.RemoveAll t.DataDir])
    ∧ (∀ e, os.RemoveAll t.DataDir = some e →
        (t.RemoveData os).1 = os.Run [lit "sudo", lit "rm", lit "-rf", t.DataDir]
        ∧ (t.RemoveData os).2.filter (fun c => c matches .Run _)
            = [.Run [lit "sudo", lit "rm", lit "-rf", t.DataDir]]
        ∧ (t.RemoveData os).2.head? = some (.RemoveAll t.DataDir)) := by
  constructor
  · intro h
    simp [Service.RemoveData, h]
  · intro e h
    simp [Service.RemoveData, h]

/-- C9, instance: removal is refused, the privileged removal works, and `RemoveData`
reports success. -/
theorem RemoveData_fallback_witness :
    ((exampleService (stubClient (.error noSuchContainer) (.error noSuchContainer)
        (.error noSuchContainer) (.error noSuchContainer) (.error noSuchContainer))).RemoveData
      permissionDeniedOS).1 = none :=
  ((RemoveData_fallback _ permissionDeniedOS).2 ⟨lit "permission denied"⟩ rfl).1

/-! ## Configuration -/

/-- C10. For every prior state of the handle and every configuration `c`, `Apply`
returns no error and leaves `Image = c.Image`, `Disabled = c.Disabled`,
`DataDir = c.Dir`, `Environment` the map with the single entry `NETWORK` to the network
identifier of the context, and `Ports`, `Volumes` and `Command` empty; `Name`,
`Hostname`, `ContainerName`, the context and the client are unchanged.  The resulting
state is the same for two prior states that agree on these unchanged fields, does not
depend on `c.ExposePorts`, and applying the same configuration again does not change
it. -/
theorem Apply_resets_state (t : Service) (c : Config) :
    (t.Apply c).2 = none
    ∧ (t.Apply c).1 = ⟨t.Name, t.Context, t.Hostname, c.Image, [],
        [(lit "NETWORK", t.Context.GetNetwork)], [], [], c.Disabled, c.Dir, t.client,
        t.ContainerName⟩
    ∧ (∀ command environment ports volumes image disabled dataDir,
        (Service.mk t.Name t.Context t.Hostname image command environment ports volumes
          disabled dataDir t.client t.ContainerName).Apply c = t.Apply c)
    ∧ (∀ exposePorts, t.Apply ⟨c.Image, exposePorts, c.Disabled, c.Dir⟩ = t.Apply c)
    ∧ ((t.Apply c).1.Apply c).1 = (t.Apply c).1 := by
  refine ⟨rfl, ?_, ?_, ?_, ?_⟩
  · simp [Service.Apply, StringMap.set]
  · intros
    simp [Service.Apply, StringMap.set]
  · intros
    simp [Service.Apply, StringMap.set]
  · simp [Service.Apply, StringMap.set]

end Base
